import Mathlib

/-!
Verification development for the plexus-core graph compiler/decompiler.

The Python source (`plexus_core/compiler.py`, `plexus_core/decompiler.py`) is
shallowly embedded below: all definitions first, then the theorems that
settle the claims.  Python `ast` node classes are modelled by the inductive
types `PyExpr` / `PyStmt`; `ast.Constant` values are represented by their
`repr` text, since the translators only ever move that text around.  Python
exceptions are modelled by `PyErr` and fallible code returns `Except`.
Dictionaries are modelled by association lists; Python object identity (used
as the key of `expression_map`) is modelled by structural equality, which
agrees with identity on the programs considered in the theorems.  Unbounded
recursion through graph links is modelled with an explicit fuel parameter;
running out of fuel is Python `RecursionError`.
-/

/-- Model of the `ast` binary-operator classes.  The four supported ones are
the keys of `ASTCompiler.BINOP_MAP` / `REVERSE_BINOP_MAP`; every other class
(`Mod`, `Pow`, ...) is collapsed into `unsupported` with a tag. -/
inductive PyBinOp where
  | add
  | sub
  | mult
  | div
  | unsupported (tag : String)
deriving DecidableEq, Repr

/-- Model of the `ast` comparison-operator classes (`CMPOP_MAP` keys plus an
`unsupported` catch-all). -/
inductive PyCmpOp where
  | eq
  | notEq
  | lt
  | ltE
  | gt
  | gtE
  | unsupported (tag : String)
deriving DecidableEq, Repr

/-- The collection-literal classes `ast.List`, `ast.Tuple`, `ast.Set`
(`ast.Dict` is omitted from the modelled fragment; no claim involves it). -/
inductive CollKind where
  | listK
  | tupleK
  | setK
deriving DecidableEq, Repr

/-- Model of Python `ast` expression nodes, restricted to the classes the two
translators inspect.  `constant` carries `repr(value)`; `unaryOp` stands for
any expression class without a dedicated visitor (e.g. `ast.UnaryOp`), whose
children are visited generically. -/
inductive PyExpr where
  | constant (reprText : String)
  | name (ident : String)
  | collection (kind : CollKind) (elts : List PyExpr)
  | binOp (left : PyExpr) (op : PyBinOp) (right : PyExpr)
  | compare (left : PyExpr) (ops : List PyCmpOp) (comparators : List PyExpr)
  | call (func : PyExpr) (args : List PyExpr) (hasKeywords : Bool)
  | unaryOp (operand : PyExpr)

/-- Model of Python `ast` statement nodes used by the translators. -/
inductive PyStmt where
  | assign (targets : List PyExpr) (value : PyExpr)
  | exprStmt (value : PyExpr)
  | ifStmt (test : PyExpr) (body : List PyStmt) (orelse : List PyStmt)
  | forStmt (target : PyExpr) (iter : PyExpr) (body : List PyStmt) (orelse : List PyStmt)
  | passStmt

/-- Model of an input dictionary `{name, link}` / `{name, value}`.  A field is
`none` when the key is absent.  The `link` field is doubly optional because the
decompiler can store the Python value `None` under the `"link"` key
(`{"link": self.expression_map.get(value_node)}`): the outer `Option` is key
presence, the inner one is the stored value. -/
structure InputData where
  name : Option String := none
  link : Option (Option String) := none
  value : Option String := none
deriving DecidableEq, Repr

/-- Model of a graph-node dictionary.  `ntype` models the `"type"` key
(`type` is a Lean keyword).  A `none` field models an absent key; the list
fields model `node.get('inputs', [])` / `node.get('body')` / `node.get('orelse')`
with absence collapsed to `[]` (the Python code only ever tests their
truthiness or iterates them, which cannot tell `None` from `[]`). -/
inductive GraphNode where
  | mk (id : Option String) (ntype : Option String) (value : Option String)
      (func_name : Option String) (target_variable : Option String)
      (inputs : List InputData) (body : List GraphNode) (orelse : List GraphNode)
      (is_intended_statement : Option Bool)

def GraphNode.id : GraphNode → Option String
  | .mk i _ _ _ _ _ _ _ _ => i

def GraphNode.ntype : GraphNode → Option String
  | .mk _ t _ _ _ _ _ _ _ => t

def GraphNode.value : GraphNode → Option String
  | .mk _ _ v _ _ _ _ _ _ => v

def GraphNode.func_name : GraphNode → Option String
  | .mk _ _ _ f _ _ _ _ _ => f

def GraphNode.target_variable : GraphNode → Option String
  | .mk _ _ _ _ tv _ _ _ _ => tv

def GraphNode.inputs : GraphNode → List InputData
  | .mk _ _ _ _ _ ins _ _ _ => ins

def GraphNode.body : GraphNode → List GraphNode
  | .mk _ _ _ _ _ _ b _ _ => b

def GraphNode.orelse : GraphNode → List GraphNode
  | .mk _ _ _ _ _ _ _ oe _ => oe

/-- The serialized graph: `{"nodes": [...], "connections": []}`.  The
`connections` field is always emitted empty and never read, so it is not
modelled. -/
structure Graph where
  nodes : List GraphNode

/-- Model of the Python exceptions raised by the two modules. -/
inductive PyErr where
  | valueError (msg : String)
  | keyError (key : String)
  | nameError (msg : String)
  | notImplementedError (msg : String)
  | indexError
  | recursionError
deriving DecidableEq, Repr

/-! ## Dictionary models

Python `dict`s keyed by strings (`node_map`, `variable_providers`,
`expression_cache`) are modelled by association lists with unique keys:
`aset` models `d[k] = v`, `aerase` models `del d[k]`.  Since the modelled
dictionaries never hold duplicate keys, `aerase` removing every matching
entry agrees with Python's single-entry deletion (and `del` on an absent key,
which cannot occur at the one `del` site in the source, is a no-op here). -/
def alookup {α : Type} : List (String × α) → String → Option α
  | [], _ => none
  | (k, v) :: rest, key => if k = key then some v else alookup rest key

def aset {α : Type} : List (String × α) → String → α → List (String × α)
  | [], key, v => [(key, v)]
  | (k, w) :: rest, key, v =>
      if k = key then (k, v) :: rest else (k, w) :: aset rest key v

def aerase {α : Type} (m : List (String × α)) (key : String) : List (String × α) :=
  m.filter (fun p => decide (p.1 ≠ key))

mutual

/-- Structural equality on `PyExpr`, modelling the object identity Python uses
as the key of `expression_map` (distinct AST occurrences in the modelled
programs are structurally distinct). -/
def beqExpr : PyExpr → PyExpr → Bool
  | .constant a, .constant b => a == b
  | .name a, .name b => a == b
  | .collection k1 e1, .collection k2 e2 => k1 == k2 && beqExprList e1 e2
  | .binOp l1 o1 r1, .binOp l2 o2 r2 => beqExpr l1 l2 && o1 == o2 && beqExpr r1 r2
  | .compare l1 o1 c1, .compare l2 o2 c2 =>
      beqExpr l1 l2 && o1 == o2 && beqExprList c1 c2
  | .call f1 a1 k1, .call f2 a2 k2 => beqExpr f1 f2 && beqExprList a1 a2 && k1 == k2
  | .unaryOp a, .unaryOp b => beqExpr a b
  | _, _ => false

def beqExprList : List PyExpr → List PyExpr → Bool
  | [], [] => true
  | x :: xs, y :: ys => beqExpr x y && beqExprList xs ys
  | _, _ => false

end

/-- `expression_map` lookup (`self.expression_map.get(value_node)`). -/
def elookup : List (PyExpr × String) → PyExpr → Option String
  | [], _ => none
  | (k, v) :: rest, e => if beqExpr k e then some v else elookup rest e

/-- `expression_map` update (`self.expression_map[node] = node_id`). -/
def eset : List (PyExpr × String) → PyExpr → String → List (PyExpr × String)
  | [], e, v => [(e, v)]
  | (k, w) :: rest, e, v =>
      if beqExpr k e then (k, v) :: rest else (k, w) :: eset rest e v

/-! ## Operator tables (`ASTCompiler.BINOP_MAP` / `CMPOP_MAP` and the
`REVERSE_*` maps of the decompiler) -/
/-- `ASTCompiler.BINOP_MAP`: symbol → `ast` arithmetic operator. -/
def BINOP_MAP (s : String) : Option PyBinOp :=
  if s = "+" then some .add
  else if s = "-" then some .sub
  else if s = "*" then some .mult
  else if s = "/" then some .div
  else none

/-- `ASTCompiler.CMPOP_MAP`: symbol → `ast` comparison operator. -/
def CMPOP_MAP (s : String) : Option PyCmpOp :=
  if s = "==" then some .eq
  else if s = "!=" then some .notEq
  else if s = "<" then some .lt
  else if s = "<=" then some .ltE
  else if s = ">" then some .gt
  else if s = ">=" then some .gtE
  else none

/-- `REVERSE_BINOP_MAP`: operator class → symbol (`None` for classes absent
from the table, modelling `op_class not in REVERSE_BINOP_MAP`). -/
def REVERSE_BINOP_MAP : PyBinOp → Option String
  | .add => some "+"
  | .sub => some "-"
  | .mult => some "*"
  | .div => some "/"
  | .unsupported _ => none

/-- `REVERSE_CMPOP_MAP`: comparison class → symbol. -/
def REVERSE_CMPOP_MAP : PyCmpOp → Option String
  | .eq => some "=="
  | .notEq => some "!="
  | .lt => some "<"
  | .ltE => some "<="
  | .gt => some ">"
  | .gtE => some ">="
  | .unsupported _ => none

/-! ## `ast.unparse` model

`pyUnparseExpr` / `pyUnparseModule` model `ast.unparse` on the emitted
fragment (used by `ASTCompiler.compile` for the final text and by the
decompiler for collection-literal texts).  Minimal re-parenthesization of
nested operators is not modelled; no theorem below depends on it. -/
mutual

def pyUnparseExpr : PyExpr → String
  | .constant t => t
  | .name i => i
  | .collection k elts =>
      let parts := pyUnparseExprList elts
      match k with
      | .listK => "[" ++ String.intercalate ", " parts ++ "]"
      | .tupleK =>
          if parts.length = 1 then "(" ++ String.intercalate ", " parts ++ ",)"
          else "(" ++ String.intercalate ", " parts ++ ")"
      | .setK => "\x7b" ++ String.intercalate ", " parts ++ "\x7d"
  | .binOp l op r =>
      pyUnparseExpr l ++ " "
        ++ (match REVERSE_BINOP_MAP op with | some sym => sym | none => "?") ++ " "
        ++ pyUnparseExpr r
  | .compare l ops comps => pyUnparseExpr l ++ pyUnparseCmpChain ops comps
  | .call f args _ =>
      pyUnparseExpr f ++ "(" ++ String.intercalate ", " (pyUnparseExprList args) ++ ")"
  | .unaryOp o => "-" ++ pyUnparseExpr o

def pyUnparseExprList : List PyExpr → List String
  | [] => []
  | e :: es => pyUnparseExpr e :: pyUnparseExprList es

def pyUnparseCmpChain : List PyCmpOp → List PyExpr → String
  | op :: ops, c :: cs =>
      " " ++ (match REVERSE_CMPOP_MAP op with | some sym => sym | none => "?")
        ++ " " ++ pyUnparseExpr c ++ pyUnparseCmpChain ops cs
  | _, _ => ""

end

mutual

/-- One statement rendered as indented source lines (4-space blocks, as
`ast.unparse` emits; `elif` collapsing is not modelled — no emitted program
below has an `if` directly in an `orelse`). -/
def pyUnparseStmtLines (ind : String) : PyStmt → List String
  | .assign targets v =>
      [ind ++ String.intercalate " = " (pyUnparseExprList targets ++ [pyUnparseExpr v])]
  | .exprStmt v => [ind ++ pyUnparseExpr v]
  | .ifStmt t b oe =>
      ((ind ++ "if " ++ pyUnparseExpr t ++ ":") :: pyUnparseStmtList (ind ++ "    ") b)
        ++ (if oe.isEmpty then [] else (ind ++ "else:") :: pyUnparseStmtList (ind ++ "    ") oe)
  | .forStmt tgt it b oe =>
      ((ind ++ "for " ++ pyUnparseExpr tgt ++ " in " ++ pyUnparseExpr it ++ ":")
          :: pyUnparseStmtList (ind ++ "    ") b)
        ++ (if oe.isEmpty then [] else (ind ++ "else:") :: pyUnparseStmtList (ind ++ "    ") oe)
  | .passStmt => [ind ++ "pass"]

def pyUnparseStmtList (ind : String) : List PyStmt → List String
  | [] => []
  | st :: rest => pyUnparseStmtLines ind st ++ pyUnparseStmtList ind rest

end

/-- `ast.unparse` of a whole `ast.Module`: statements joined by newlines. -/
def pyUnparseModule (body : List PyStmt) : String :=
  String.intercalate "\n" (pyUnparseStmtList "" body)

/-! ## Python `repr` stand-ins for error messages

The compiler interpolates whole dictionaries into two error messages
(`f"... Node data: {node}"`, `f"... Got: {input_data}"`).  The renderings
below are abbreviated stand-ins for CPython dict `repr`; no claim inspects
this part of a message, only the fixed sentence around it. -/
def optStrRepr : Option String → String
  | none => "None"
  | some s => "\x27" ++ s ++ "\x27"

def inputReprModel (i : InputData) : String :=
  "\x7b\x27name\x27: " ++ optStrRepr i.name
    ++ ", \x27link\x27: " ++ (match i.link with | none => "<absent>" | some v => optStrRepr v)
    ++ ", \x27value\x27: " ++ optStrRepr i.value ++ "\x7d"

def nodeReprModel (n : GraphNode) : String :=
  "\x7b\x27id\x27: " ++ optStrRepr n.id ++ ", \x27type\x27: " ++ optStrRepr n.ntype ++ ", ...\x7d"

/-- The `ValueError` text of `ASTCompiler._discover_nodes` for a node whose
`'id'` access raised `KeyError`. -/
def missingIdMsg (n : GraphNode) : String :=
  "A node in the graph is missing a required \x27id\x27 field. Node data: " ++ nodeReprModel n

/-- The `ValueError` text of the `get_input` helpers in
`ASTCompiler._build_expression` / `_build_statement`. -/
def missingInputMsg (nid nt slot : String) : String :=
  "Node \x27" ++ nid ++ "\x27 of type \x27" ++ nt ++ "\x27 is missing required input: \x27"
    ++ slot ++ "\x27"

/-! ## `ast.parse(mode='eval')` model

`ASTCompiler._get_input_as_ast` parses a `Literal` input's text with
`ast.parse(input_data['value'], mode='eval').body`.  `astParseEval` models
that stdlib call on the textual fragment exercised here: integer and quoted
string constants, `True`/`False`/`None`, names, call syntax `name(arg, ...)`,
and bracketed list displays.  A text outside the modelled grammar returns
`none`, modelling `SyntaxError` (or the `IndexError` CPython can raise on an
empty text).  Crucially — mirroring the stdlib — the grammar is that of
arbitrary eval-mode expressions, not of literals only: call syntax parses
successfully. -/
def squoteChar : Char := Char.ofNat 39

def isIdentChar (c : Char) : Bool := c.isAlphanum || c = '_'

def skipSpaces : List Char → List Char
  | [] => []
  | c :: rest => if c = ' ' then skipSpaces rest else c :: rest

mutual

def parseExprCore : Nat → List Char → Option (PyExpr × List Char)
  | 0, _ => none
  | fuel+1, input =>
    match skipSpaces input with
    | [] => none
    | c :: rest =>
      if c.isDigit then
        let (ds, rem) := List.span Char.isDigit (c :: rest)
        some (.constant (String.mk ds), rem)
      else if c = squoteChar then
        match List.span (fun ch => ch != squoteChar) rest with
        | (body, _ :: rem) =>
            some (.constant (String.mk (squoteChar :: (body ++ [squoteChar]))), rem)
        | (_, []) => none
      else if isIdentChar c then
        let (ident, rem) := List.span isIdentChar (c :: rest)
        let idStr := String.mk ident
        if idStr = "True" || idStr = "False" || idStr = "None" then
          some (.constant idStr, rem)
        else
          match skipSpaces rem with
          | '(' :: rem2 =>
            match parseElems fuel ')' rem2 with
            | some (args, rem3) => some (.call (.name idStr) args false, rem3)
            | none => none
          | _ => some (.name idStr, rem)
      else if c = '[' then
        match parseElems fuel ']' rest with
        | some (elts, rem2) => some (.collection .listK elts, rem2)
        | none => none
      else none

def parseElems : Nat → Char → List Char → Option (List PyExpr × List Char)
  | 0, _, _ => none
  | fuel+1, closeCh, input =>
    match skipSpaces input with
    | [] => none
    | c :: rest =>
      if c = closeCh then some ([], rest)
      else
        match parseExprCore fuel (c :: rest) with
        | some (e, rem) =>
          match parseElemsTail fuel closeCh rem with
          | some (es, rem2) => some (e :: es, rem2)
          | none => none
        | none => none

def parseElemsTail : Nat → Char → List Char → Option (List PyExpr × List Char)
  | 0, _, _ => none
  | fuel+1, closeCh, input =>
    match skipSpaces input with
    | [] => none
    | c :: rest =>
      if c = closeCh then some ([], rest)
      else if c = ',' then
        match parseExprCore fuel rest with
        | some (e, rem) =>
          match parseElemsTail fuel closeCh rem with
          | some (es, rem2) => some (e :: es, rem2)
          | none => none
        | none => none
      else none

end

def astParseEval (s : String) : Option PyExpr :=
  match parseExprCore (s.length + 1) s.toList with
  | some (e, rem) => if (skipSpaces rem).isEmpty then some e else none
  | none => none

/-! ## The graph compiler (`plexus_core/compiler.py`, class `ASTCompiler`)

`CompState` holds the instance state mutated after construction.  The
constructor's check that the JSON has a `'nodes'` list cannot fail in this
embedding because `Graph` always carries one.  `_discover_nodes` wraps only
this node's `node['id']` access in `try/except KeyError` — the recursive
calls raise `ValueError`, which that handler does not catch — so the
embedding checks `id` directly.  Recursing into an absent/empty `body` or
`orelse` (skipped by the truthiness test in Python) is a no-op here. -/
structure CompState where
  node_map : List (String × GraphNode)
  expression_cache : List (String × PyExpr)
  compiled_statements : List String

mutual

/-- The per-node step of `ASTCompiler._discover_nodes`:
`self.node_map[node_id] = node` happens before the recursion into
`body`/`orelse`, and an already-seen id `continue`s without recursing.
Recursing into an absent/empty `body`/`orelse` (skipped by the truthiness
test in Python) is a no-op. -/
def discoverNode : GraphNode → List (String × GraphNode) →
    Except PyErr (List (String × GraphNode))
  | GraphNode.mk i t v f tv ins b oe iis, m =>
    match i with
    | none => .error (.valueError (missingIdMsg (GraphNode.mk i t v f tv ins b oe iis)))
    | some nid =>
      if (alookup m nid).isSome then .ok m
      else do
        let m1 := m ++ [(nid, GraphNode.mk i t v f tv ins b oe iis)]
        let m2 ← discoverNodes b m1
        discoverNodes oe m2

/-- `ASTCompiler._discover_nodes`: the loop over a node list (the `node_map`
accumulator is passed explicitly). -/
def discoverNodes : List GraphNode → List (String × GraphNode) →
    Except PyErr (List (String × GraphNode))
  | [], m => .ok m
  | n :: rest, m => do
      let m1 ← discoverNode n m
      discoverNodes rest m1

end

/-- The `get_input` closure shared by `_build_expression` and
`_build_statement`: first input whose `.get('name')` equals the slot, else a
`ValueError` naming node id, node type and slot. -/
def getNamedInput (inputs : List InputData) (nid nt slot : String) :
    Except PyErr InputData :=
  match inputs.find? (fun i => i.name = some slot) with
  | some i => .ok i
  | none => .error (.valueError (missingInputMsg nid nt slot))

/-- `sorted(node.get('inputs', []), key=lambda i: i['name'])` evaluates the
key of every element (raising `KeyError: 'name'` at the first nameless input)
before sorting. -/
def inputsWithNames : List InputData → Except PyErr (List (String × InputData))
  | [] => .ok []
  | i :: rest =>
    match i.name with
    | none => .error (.keyError "name")
    | some nm => do
        let tl ← inputsWithNames rest
        .ok ((nm, i) :: tl)

/-- Stable insertion used to model Python's stable `sorted` by string key. -/
def insertByName (x : String × InputData) :
    List (String × InputData) → List (String × InputData)
  | [] => [x]
  | y :: ys => if y.1 ≤ x.1 then y :: insertByName x ys else x :: y :: ys

def sortInputsByName (l : List (String × InputData)) : List (String × InputData) :=
  l.foldl (fun acc x => insertByName x acc) []

mutual

/-- `ASTCompiler._get_input_as_ast`.  Note the `KeyError` at
`return self.expression_cache[link_id]` when `_build_expression` fell through
without caching anything (unsupported operator symbol), and that a stored
`None` link is looked up as the (absent) key `None`. -/
def getInputAsAst : Nat → CompState → InputData → Except PyErr (CompState × PyExpr)
  | 0, _, _ => .error .recursionError
  | fuel+1, s, inp =>
    match inp.link with
    | some linkVal =>
      match linkVal with
      | none => .error (.valueError "Node link \x27None\x27 not found in graph.")
      | some lid =>
        match alookup s.node_map lid with
        | none => .error (.valueError ("Node link \x27" ++ lid ++ "\x27 not found in graph."))
        | some linked =>
          if linked.ntype = some "for_loop" then
            match linked.target_variable with
            | none => .error (.keyError "target_variable")
            | some tv => .ok (s, .name tv)
          else do
            let s1 ←
              if (alookup s.expression_cache lid).isSome then pure s
              else buildExpression fuel s linked
            match alookup s1.expression_cache lid with
            | some e => .ok (s1, e)
            | none => .error (.keyError lid)
    | none =>
      match inp.value with
      | some v =>
        match astParseEval v with
        | some e => .ok (s, e)
        | none => .error (.valueError ("Could not parse literal value: " ++ v))
      | none =>
        .error (.valueError
          ("Input dictionary is malformed. Must contain \x27link\x27 or \x27value\x27. Got: "
            ++ inputReprModel inp))

/-- `ASTCompiler._build_expression`.  The guard `if not node_type:` is a
truthiness test: it raises the missing-`'type'` `ValueError` both when the
`'type'` key is absent and when it holds the falsy empty string.  A
`binary_op` whose symbol is in neither table falls through silently: the
cache is left untouched and no error is raised here. -/
def buildExpression : Nat → CompState → GraphNode → Except PyErr CompState
  | 0, _, _ => .error .recursionError
  | fuel+1, s, node =>
    match node.id with
    | none => .error (.keyError "id")
    | some nid =>
      if (alookup s.expression_cache nid).isSome then .ok s
      else
        match node.ntype with
        | none => .error (.valueError ("Node \x27" ++ nid ++ "\x27 is missing a \x27type\x27 field."))
        | some nt =>
          if nt = "" then .error (.valueError ("Node \x27" ++ nid ++ "\x27 is missing a \x27type\x27 field."))
          else if nt = "variable_assign" then
            match node.value with
            | none => .error (.keyError "value")
            | some vname =>
              .ok { s with expression_cache := aset s.expression_cache nid (.name vname) }
          else if nt = "binary_op" then
            match node.value with
            | none => .error (.keyError "value")
            | some opStr => do
              let linp ← getNamedInput node.inputs nid nt "left"
              let (s1, left) ← getInputAsAst fuel s linp
              let rinp ← getNamedInput node.inputs nid nt "right"
              let (s2, right) ← getInputAsAst fuel s1 rinp
              match BINOP_MAP opStr with
              | some op =>
                .ok { s2 with expression_cache := aset s2.expression_cache nid (.binOp left op right) }
              | none =>
                match CMPOP_MAP opStr with
                | some op =>
                  .ok { s2 with expression_cache := aset s2.expression_cache nid (.compare left [op] [right]) }
                | none => .ok s2
          else if nt = "call_function" then
            match node.func_name with
            | none => .error (.keyError "func_name")
            | some fname => do
              let keyed ← inputsWithNames node.inputs
              let (s1, argAsts) ← getInputsAsAsts fuel s (sortInputsByName keyed)
              .ok { s1 with expression_cache := aset s1.expression_cache nid (.call (.name fname) argAsts false) }
          else .ok s

/-- The argument list comprehension of the `call_function` branch. -/
def getInputsAsAsts : Nat → CompState → List (String × InputData) →
    Except PyErr (CompState × List PyExpr)
  | 0, _, _ => .error .recursionError
  | _+1, s, [] => .ok (s, [])
  | fuel+1, s, (_, i) :: rest => do
      let (s1, e) ← getInputAsAst fuel s i
      let (s2, es) ← getInputsAsAsts fuel s1 rest
      .ok (s2, e :: es)

/-- `ASTCompiler._build_statement`.  The guard `if not node_type:` is a
truthiness test, raising the missing-`'type'` `ValueError` for an absent key
and for the falsy empty string alike.  A node whose (truthy) kind is outside
the four handled ones leaves `statement = None`: no error, no cache update,
nothing emitted. -/
def buildStatement : Nat → CompState → GraphNode →
    Except PyErr (CompState × Option PyStmt)
  | 0, _, _ => .error .recursionError
  | fuel+1, s, node =>
    match node.id with
    | none => .error (.keyError "id")
    | some nid =>
      if nid ∈ s.compiled_statements then .ok (s, none)
      else
        match node.ntype with
        | none => .error (.valueError ("Node \x27" ++ nid ++ "\x27 is missing a \x27type\x27 field."))
        | some nt =>
          if nt = "" then .error (.valueError ("Node \x27" ++ nid ++ "\x27 is missing a \x27type\x27 field."))
          else if nt = "variable_assign" then do
            let s1 ← buildExpression fuel s node
            match node.value with
            | none => .error (.keyError "value")
            | some vname => do
              let vinp ← getNamedInput node.inputs nid nt "value"
              let (s2, vexpr) ← getInputAsAst fuel s1 vinp
              .ok ({ s2 with compiled_statements := s2.compiled_statements ++ [nid] },
                   some (.assign [.name vname] vexpr))
          else if nt = "call_function" then do
            let s1 ← buildExpression fuel s node
            match alookup s1.expression_cache nid with
            | some e =>
              .ok ({ s1 with compiled_statements := s1.compiled_statements ++ [nid] },
                   some (.exprStmt e))
            | none => .error (.keyError nid)
          else if nt = "if_statement" then do
            let tinp ← getNamedInput node.inputs nid nt "test"
            let (s1, test) ← getInputAsAst fuel s tinp
            let (s2, bodySts) ← buildStatements fuel s1 node.body
            let (s3, orelseSts) ← buildStatements fuel s2 node.orelse
            let bodySts := if bodySts.isEmpty then [PyStmt.passStmt] else bodySts
            .ok ({ s3 with compiled_statements := s3.compiled_statements ++ [nid] },
                 some (.ifStmt test bodySts orelseSts))
          else if nt = "for_loop" then
            match node.target_variable with
            | none => .error (.keyError "target_variable")
            | some tvar => do
              let iinp ← getNamedInput node.inputs nid nt "iter"
              let (s1, iterE) ← getInputAsAst fuel s iinp
              let (s2, bodySts) ← buildStatements fuel s1 node.body
              let bodySts := if bodySts.isEmpty then [PyStmt.passStmt] else bodySts
              .ok ({ s2 with compiled_statements := s2.compiled_statements ++ [nid] },
                   some (.forStmt (.name tvar) iterE bodySts []))
          else .ok (s, none)

/-- The `body`/`orelse` list comprehensions of `_build_statement`, which drop
`None` results. -/
def buildStatements : Nat → CompState → List GraphNode →
    Except PyErr (CompState × List PyStmt)
  | 0, _, _ => .error .recursionError
  | _+1, s, [] => .ok (s, [])
  | fuel+1, s, n :: rest => do
      let (s1, st?) ← buildStatement fuel s n
      let (s2, sts) ← buildStatements fuel s1 rest
      match st? with
      | some st => .ok (s2, st :: sts)
      | none => .ok (s2, sts)

end

/-- The `linked_ids` set of `ASTCompiler.compile`, built from the inputs of
the **top-level** nodes only (`for node in self.graph['nodes']`).  Python
collects the raw values stored under `'link'` — possibly `None` — into a
set; only membership is used, so a list models it. -/
def collectLinkedIds (nodes : List GraphNode) : List (Option String) :=
  nodes.foldr (fun n acc => n.inputs.filterMap (fun i => i.link) ++ acc) []

/-- The emission loop of `ASTCompiler.compile`: a top-level node whose id is
in `linked_ids` is skipped; otherwise its statement is built and, when not
`None`, appended to the module body. -/
def emitTop : Nat → CompState → List (Option String) → List GraphNode →
    Except PyErr (CompState × List PyStmt)
  | _, s, _, [] => .ok (s, [])
  | fuel, s, linked, n :: rest =>
    match n.id with
    | none => .error (.keyError "id")
    | some nid =>
      if (some nid) ∈ linked then emitTop fuel s linked rest
      else do
        let (s1, st?) ← buildStatement fuel s n
        let (s2, sts) ← emitTop fuel s1 linked rest
        match st? with
        | some st => .ok (s2, st :: sts)
        | none => .ok (s2, sts)

/-- `ASTCompiler.compile` up to (and excluding) the final `ast.unparse`: the
`ast.Module` body it constructs.  `fix_missing_locations` only adds position
attributes, which this embedding does not carry. -/
def compileModule (fuel : Nat) (g : Graph) : Except PyErr (List PyStmt) := do
  let m ← discoverNodes g.nodes []
  let (_, body) ← emitTop fuel ⟨m, [], []⟩ (collectLinkedIds g.nodes) g.nodes
  .ok body

/-- `build_ast_from_json` / `ASTCompiler.compile`: construction followed by
`ast.unparse`. -/
def compileGraph (fuel : Nat) (g : Graph) : Except PyErr String := do
  let body ← compileModule fuel g
  .ok (pyUnparseModule body)

/-! ## The source decompiler (`plexus_core/decompiler.py`, class `JSONDecompiler`)

The visitor methods are embedded one-to-one.  `visit` dispatches on the node
class; a class without a `visit_*` method gets `generic_visit`, which visits
the node's AST children.  `decompile_python_to_json` visits the `ast.Module`,
whose `generic_visit` visits each top-level statement in order
(`visitStmtList`).  The statement kinds of `PyStmt` all have visitors except
`passStmt`, whose generic visit does nothing. -/
structure DecompState where
  statement_nodes : List GraphNode
  expression_nodes : List GraphNode
  variable_providers : List (String × String)
  expression_map : List (PyExpr × String)
  node_count : Nat

/-- `JSONDecompiler._get_unique_id` (the parameter is called `prefix` in
Python). -/
def getUniqueId (pfx : String) (s : DecompState) : String × DecompState :=
  (pfx ++ "-" ++ toString (s.node_count + 1), { s with node_count := s.node_count + 1 })

mutual

/-- The `visit` dispatcher restricted to expressions, including the
`generic_visit` child recursion for classes without a visitor
(`Constant`/`Name` have no AST-expression children; collections visit their
elements; `unaryOp` stands for a visitorless class with one child). -/
def visitExpr : Nat → DecompState → PyExpr → Except PyErr DecompState
  | 0, _, _ => .error .recursionError
  | fuel+1, s, e =>
    match e with
    | .constant _ => .ok s
    | .name _ => .ok s
    | .collection _ elts => visitExprList fuel s elts
    | .unaryOp o => visitExpr fuel s o
    | .call _ _ _ => visitCall fuel s e false
    | .binOp _ _ _ => visitBinOp fuel s e
    | .compare _ _ _ => visitCompare fuel s e

def visitExprList : Nat → DecompState → List PyExpr → Except PyErr DecompState
  | 0, _, _ => .error .recursionError
  | _+1, s, [] => .ok s
  | fuel+1, s, e :: es => do
      let s1 ← visitExpr fuel s e
      visitExprList fuel s1 es

/-- `JSONDecompiler._get_input_data_from_ast`.  The final branch stores
whatever `expression_map.get` returns — possibly `None` — under the
`"link"` key. -/
def getInputDataFromAst : Nat → DecompState → PyExpr →
    Except PyErr (DecompState × InputData)
  | 0, _, _ => .error .recursionError
  | fuel+1, s, e =>
    match e with
    | .constant t => .ok (s, { value := some t })
    | .name v =>
      match alookup s.variable_providers v with
      | some pid => .ok (s, { link := some (some pid) })
      | none => .error (.nameError ("Variable \x27" ++ v ++ "\x27 used before assignment."))
    | .collection _ _ => .ok (s, { value := some (pyUnparseExpr e) })
    | _ => do
      let s1 ← if (elookup s.expression_map e).isSome then pure s else visitExpr fuel s e
      .ok (s1, { link := some (elookup s1.expression_map e) })

/-- `JSONDecompiler._decompile_body`: swap `statement_nodes` out, visit the
body, swap back, return the nodes gathered in between. -/
def decompileBody : Nat → DecompState → List PyStmt →
    Except PyErr (DecompState × List GraphNode)
  | 0, _, _ => .error .recursionError
  | fuel+1, s, stmts => do
      let saved := s.statement_nodes
      let s1 ← visitStmtList fuel { s with statement_nodes := [] } stmts
      .ok ({ s1 with statement_nodes := saved }, s1.statement_nodes)

/-- The `visit` dispatcher restricted to statements. -/
def visitStmt : Nat → DecompState → PyStmt → Except PyErr DecompState
  | 0, _, _ => .error .recursionError
  | fuel+1, s, st =>
    match st with
    | .assign targets v => visitAssign fuel s targets v
    | .exprStmt v =>
      match v with
      | .call _ _ _ => visitCall fuel s v true
      | _ => visitExpr fuel s v
    | .ifStmt t b oe => visitIf fuel s t b oe
    | .forStmt tgt it b oe => visitFor fuel s tgt it b oe
    | .passStmt => .ok s

def visitStmtList : Nat → DecompState → List PyStmt → Except PyErr DecompState
  | 0, _, _ => .error .recursionError
  | _+1, s, [] => .ok s
  | fuel+1, s, st :: rest => do
      let s1 ← visitStmt fuel s st
      visitStmtList fuel s1 rest

/-- `JSONDecompiler.visit_Assign`: visit the value, require the first target
to be a simple name (later targets of a chained assignment are never
examined), build the `variable_assign` node and register the provider. -/
def visitAssign : Nat → DecompState → List PyExpr → PyExpr → Except PyErr DecompState
  | 0, _, _, _ => .error .recursionError
  | fuel+1, s, targets, v => do
      let s1 ← visitExpr fuel s v
      match targets with
      | [] => .error .indexError
      | t0 :: _ =>
        match t0 with
        | .name varName => do
          let (nid, s2) := getUniqueId "assign" s1
          let (s3, inp) ← getInputDataFromAst fuel s2 v
          let inp := { inp with name := some "value" }
          let node := GraphNode.mk (some nid) (some "variable_assign") (some varName)
            none none [inp] [] [] (some true)
          .ok { s3 with statement_nodes := s3.statement_nodes ++ [node],
                        variable_providers := aset s3.variable_providers varName nid }
        | _ => .error (.notImplementedError "Unsupported syntax: Assignment to non-simple targets")

/-- `JSONDecompiler.visit_If` (an empty `orelse` skips the body decompile by
the truthiness test; decompiling `[]` would be an equivalent no-op). -/
def visitIf : Nat → DecompState → PyExpr → List PyStmt → List PyStmt →
    Except PyErr DecompState
  | 0, _, _, _, _ => .error .recursionError
  | fuel+1, s, t, b, oe => do
      let (nid, s1) := getUniqueId "if" s
      let s2 ← visitExpr fuel s1 t
      let (s3, tinp) ← getInputDataFromAst fuel s2 t
      let tinp := { tinp with name := some "test" }
      let (s4, bodyNodes) ← decompileBody fuel s3 b
      let (s5, orelseNodes) ←
        if oe.isEmpty then pure (s4, ([] : List GraphNode)) else decompileBody fuel s4 oe
      let node := GraphNode.mk (some nid) (some "if_statement") none none none
        [tinp] bodyNodes orelseNodes (some true)
      .ok { s5 with statement_nodes := s5.statement_nodes ++ [node] }

/-- `JSONDecompiler.visit_For`: reject `for`/`else` and non-name targets,
bind the loop variable's provider to the node id around the body decompile,
then restore it — Python's `if previous_provider:` is a truthiness test, so
an empty-string previous provider (never produced by `_get_unique_id`) would
be dropped rather than restored. -/
def visitFor : Nat → DecompState → PyExpr → PyExpr → List PyStmt → List PyStmt →
    Except PyErr DecompState
  | 0, _, _, _, _, _ => .error .recursionError
  | fuel+1, s, tgt, it, b, oe =>
    if !oe.isEmpty then .error (.notImplementedError "For/else loops are not supported.")
    else
      match tgt with
      | .name tvar => do
        let (nid, s1) := getUniqueId "for_loop" s
        let s2 ← visitExpr fuel s1 it
        let (s3, iinp) ← getInputDataFromAst fuel s2 it
        let iinp := { iinp with name := some "iter" }
        let previous := alookup s3.variable_providers tvar
        let s4 := { s3 with variable_providers := aset s3.variable_providers tvar nid }
        let (s5, bodyNodes) ← decompileBody fuel s4 b
        let restored :=
          match previous with
          | some p => if p = "" then aerase s5.variable_providers tvar
                      else aset s5.variable_providers tvar p
          | none => aerase s5.variable_providers tvar
        let node := GraphNode.mk (some nid) (some "for_loop") none none (some tvar)
          [iinp] bodyNodes [] (some true)
        .ok { s5 with variable_providers := restored,
                      statement_nodes := s5.statement_nodes ++ [node] }
      | _ => .error (.notImplementedError "Looping with complex targets is not supported.")

/-- `JSONDecompiler.visit_Call` (both the statement and the expression use;
a non-`Name` callee returns silently before the keyword check). -/
def visitCall : Nat → DecompState → PyExpr → Bool → Except PyErr DecompState
  | 0, _, _, _ => .error .recursionError
  | fuel+1, s, e, is_statement =>
    match e with
    | .call func args kw =>
      match func with
      | .name fname =>
        if kw then .error (.notImplementedError "Keyword arguments are not yet supported.")
        else do
          let s1 ← visitExprList fuel s args
          let (nid, s2) := getUniqueId "call" s1
          let (s3, inputs) ← collectCallInputs fuel s2 args 0
          let node := GraphNode.mk (some nid) (some "call_function") none (some fname)
            none inputs [] [] (some is_statement)
          let s4 :=
            if is_statement then { s3 with statement_nodes := s3.statement_nodes ++ [node] }
            else { s3 with expression_nodes := s3.expression_nodes ++ [node] }
          .ok { s4 with expression_map := eset s4.expression_map e nid }
      | _ => .ok s
    | _ => .ok s

/-- The argument loop of `visit_Call`: `_get_input_data_from_ast` per
argument, tagged `arg0`, `arg1`, ... in order. -/
def collectCallInputs : Nat → DecompState → List PyExpr → Nat →
    Except PyErr (DecompState × List InputData)
  | 0, _, _, _ => .error .recursionError
  | _+1, s, [], _ => .ok (s, [])
  | fuel+1, s, a :: rest, idx => do
      let (s1, inp) ← getInputDataFromAst fuel s a
      let inp := { inp with name := some ("arg" ++ toString idx) }
      let (s2, inps) ← collectCallInputs fuel s1 rest (idx + 1)
      .ok (s2, inp :: inps)

/-- `JSONDecompiler.visit_BinOp`.  The id is allocated before the operator
check; an operator outside `REVERSE_BINOP_MAP` falls back to `generic_visit`,
which visits both children a second time and registers nothing. -/
def visitBinOp : Nat → DecompState → PyExpr → Except PyErr DecompState
  | 0, _, _ => .error .recursionError
  | fuel+1, s, e =>
    match e with
    | .binOp l op r => do
      let s1 ← visitExpr fuel s l
      let s2 ← visitExpr fuel s1 r
      let (nid, s3) := getUniqueId "op" s2
      match REVERSE_BINOP_MAP op with
      | none => do
          let s4 ← visitExpr fuel s3 l
          visitExpr fuel s4 r
      | some opStr => do
          let (s4, li) ← getInputDataFromAst fuel s3 l
          let li := { li with name := some "left" }
          let (s5, ri) ← getInputDataFromAst fuel s4 r
          let ri := { ri with name := some "right" }
          let node := GraphNode.mk (some nid) (some "binary_op") (some opStr) none none
            [li, ri] [] [] (some false)
          .ok { s5 with expression_nodes := s5.expression_nodes ++ [node],
                        expression_map := eset s5.expression_map e nid }
    | _ => .ok s

/-- `JSONDecompiler.visit_Compare`.  `node.comparators[0]` is visited before
the single-comparison check; a chained comparison or an operator outside
`REVERSE_CMPOP_MAP` falls back to `generic_visit` (left and every comparator
visited again).  The emitted node kind is `binary_op`, as in the source. -/
def visitCompare : Nat → DecompState → PyExpr → Except PyErr DecompState
  | 0, _, _ => .error .recursionError
  | fuel+1, s, e =>
    match e with
    | .compare l ops comps => do
      let s1 ← visitExpr fuel s l
      match comps with
      | [] => .error .indexError
      | c0 :: _ => do
        let s2 ← visitExpr fuel s1 c0
        match ops with
        | [op] =>
          let (nid, s3) := getUniqueId "op" s2
          match REVERSE_CMPOP_MAP op with
          | none => do
              let s4 ← visitExpr fuel s3 l
              visitExprList fuel s4 comps
          | some opStr => do
              let (s4, li) ← getInputDataFromAst fuel s3 l
              let li := { li with name := some "left" }
              let (s5, ri) ← getInputDataFromAst fuel s4 c0
              let ri := { ri with name := some "right" }
              let node := GraphNode.mk (some nid) (some "binary_op") (some opStr) none none
                [li, ri] [] [] (some false)
              .ok { s5 with expression_nodes := s5.expression_nodes ++ [node],
                            expression_map := eset s5.expression_map e nid }
        | _ => do
          let s4 ← visitExpr fuel s2 l
          visitExprList fuel s4 comps
    | _ => .ok s

end

/-- `JSONDecompiler.get_graph`: all statement nodes followed by all
expression nodes. -/
def getGraph (s : DecompState) : Graph :=
  ⟨s.statement_nodes ++ s.expression_nodes⟩

/-- `decompile_python_to_json` on an already-parsed module body (the
`ast.parse` wrapper concerns only text that fails to parse, which is outside
this AST-level embedding). -/
def decompileProgram (fuel : Nat) (stmts : List PyStmt) : Except PyErr Graph := do
  let s ← visitStmtList fuel ⟨[], [], [], [], 0⟩ stmts
  .ok (getGraph s)

/-! ## Derived graph notions used by the claims -/
mutual

/-- Every node of a graph fragment, the nesting included (a node followed by
everything in its `body` and `orelse`). -/
def allNodesOf : GraphNode → List GraphNode
  | .mk i t v f tv ins b oe iis =>
    GraphNode.mk i t v f tv ins b oe iis :: (allNodesOfList b ++ allNodesOfList oe)

def allNodesOfList : List GraphNode → List GraphNode
  | [] => []
  | n :: rest => allNodesOf n ++ allNodesOfList rest

end

mutual

/-- Every id present on a node or on its nested `body`/`orelse` nodes. -/
def nodeIds : GraphNode → List String
  | .mk i _ _ _ _ _ b oe _ =>
    (match i with | some s => [s] | none => []) ++ (nodesIds b ++ nodesIds oe)

def nodesIds : List GraphNode → List String
  | [] => []
  | n :: rest => nodeIds n ++ nodesIds rest

end

/-- The non-null `Link` target of one input, if any. -/
def inputLinkTarget (i : InputData) : Option String :=
  match i.link with
  | some (some l) => some l
  | _ => none

mutual

/-- Every id that appears as a (non-null) `Link` target on a node's inputs or
anywhere inside its `body`/`orelse` — the collection the spec describes for
statement-root detection ("a `Link` target anywhere in the index (including
inside nested statements)") and for the Link invariant. -/
def nodeLinkTargets : GraphNode → List String
  | .mk _ _ _ _ _ ins b oe _ =>
    ins.filterMap inputLinkTarget ++ (nodesLinkTargets b ++ nodesLinkTargets oe)

def nodesLinkTargets : List GraphNode → List String
  | [] => []
  | n :: rest => nodeLinkTargets n ++ nodesLinkTargets rest

end

/-! ## Claim C1 — round-trip identity -/
/-- The program `x = 100` followed by `print(x)` (the AST of
`"x = 100\nprint(x)"`, the round-trip example of the spec and of
`test_consistency_assignment_and_print`). -/
def c1Program : List PyStmt :=
  [.assign [.name "x"] (.constant "100"),
   .exprStmt (.call (.name "print") [.name "x"] false)]

/-! ## Claim C2 — root detection -/
def c2AssignNode : GraphNode :=
  .mk (some "a1") (some "variable_assign") (some "x") none none
    [{ name := some "value", value := some "1" }] [] [] none

def c2CallNode : GraphNode :=
  .mk (some "c1") (some "call_function") none (some "print") none
    [{ name := some "arg0", link := some (some "a1") }] [] [] none

def c2IfNode : GraphNode :=
  .mk (some "i1") (some "if_statement") none none none
    [{ name := some "test", value := some "True" }] [c2CallNode] [] none

/-- A graph in which the only `Link` to the top-level node `a1` sits on a
node nested inside the `if` node's `body`. -/
def c2Graph : Graph := ⟨[c2AssignNode, c2IfNode]⟩

/-! ## Claim C3 — literal inputs parsed as arbitrary expressions -/
/-- A graph whose single `variable_assign` node carries the input text
`print(1)` — a function call, not a literal. -/
def c3Graph : Graph :=
  ⟨[.mk (some "a1") (some "variable_assign") (some "x") none none
      [{ name := some "value", value := some "print(1)" }] [] [] none]⟩

/-! ## Claim C5 — unsupported operator symbol -/
def c5BinopNode : GraphNode :=
  .mk (some "b1") (some "binary_op") (some "%") none none
    [{ name := some "left", value := some "1" },
     { name := some "right", value := some "2" }] [] [] none

def c5AssignNode : GraphNode :=
  .mk (some "a1") (some "variable_assign") (some "x") none none
    [{ name := some "value", link := some (some "b1") }] [] [] none

/-- `x = 1 % 2` as IR: the assign's value links a `binary_op` whose symbol
`%` is in neither operator table. -/
def c5Graph : Graph := ⟨[c5AssignNode, c5BinopNode]⟩

/-! ## Claim C4 — the Link invariant on decompiler output -/
/-- The AST of `"x = -5"`: the value is `UnaryOp(USub, Constant(5))`, an
expression class without a dedicated visitor. -/
def c4Program : List PyStmt := [.assign [.name "x"] (.unaryOp (.constant "5"))]

/-- The node `decompile` produces for it: the assign's input stores the
Python value `None` under the `"link"` key (`link := some none`). -/
def c4NullLinkNode : GraphNode :=
  .mk (some "assign-1") (some "variable_assign") (some "x") none none
    [{ name := some "value", link := some none }] [] [] (some true)

/-! ## Claim C6 — missing id / missing input -/
def c6HiddenNode : GraphNode :=
  .mk none (some "call_function") none (some "print") none [] [] [] none

def c6DupTopNode : GraphNode :=
  .mk (some "x") (some "call_function") none (some "print") none [] [] [] none

def c6DupIfNode : GraphNode :=
  .mk (some "x") (some "if_statement") none none none
    [{ name := some "test", value := some "True" }] [c6HiddenNode] [] none

/-- Two top-level nodes share the id `x`; the second one's `body` holds a
node with no `id` at all. -/
def c6DupGraph : Graph := ⟨[c6DupTopNode, c6DupIfNode]⟩

/-- The spec's own missing-input example: a node with a `type` but no
required input. -/
def c6MissingInputGraph : Graph :=
  ⟨[.mk (some "n1") (some "if_statement") none none none [] [] [] none]⟩

/-! ## Claim C7 — non-simple assignment targets -/
/-- The AST of the chained assignment `"x = y = 1"`: two targets, both
simple names. -/
def c7ChainedProgram : List PyStmt :=
  [.assign [.name "x", .name "y"] (.constant "1")]

/-- The AST of `"x, y = 1, 2"`: one target, a `Tuple`. -/
def c7DestructuringProgram : List PyStmt :=
  [.assign [.collection .tupleK [.name "x", .name "y"]]
    (.collection .tupleK [.constant "1", .constant "2"])]

/-! ## Claim C8 — unresolved variable reference -/
/-- The AST of `"print(x)"` with `x` unbound. -/
def c8Program : List PyStmt := [.exprStmt (.call (.name "print") [.name "x"] false)]

/-! ## Claim C10 — kinds outside the statement builder -/
/-- A lone, unlinked `binary_op` node. -/
def c10Graph : Graph :=
  ⟨[.mk (some "b1") (some "binary_op") (some "+") none none
      [{ name := some "left", value := some "1" },
       { name := some "right", value := some "2" }] [] [] none]⟩

/-- A lone, unlinked top-level node whose `"type"` holds the falsy empty
string — a kind that is not one of the four statement-building kinds. -/
def c10EmptyTypeGraph : Graph :=
  ⟨[.mk (some "e1") (some "") none none none [] [] [] none]⟩

/-- The spec's own missing-id example graph
(`{"nodes":[{"type":"call_function","func_name":"print"}]}`). -/
def c6IdlessGraph : Graph :=
  ⟨[.mk none (some "call_function") none (some "print") none [] [] [] none]⟩

/-- A concrete pre-state for the C9 witness: `i` already has provider
`old-7`, `items` has `assign-1`. -/
def c9InState : DecompState :=
  ⟨[], [], [("items", "assign-1"), ("i", "old-7")], [], 7⟩

/-- The state `visit_For` produces from `c9InState` on
`for i in items: print(i)`. -/
def c9OutState : DecompState :=
  ⟨[.mk (some "for_loop-8") (some "for_loop") none none (some "i")
      [{ name := some "iter", link := some (some "assign-1") }]
      [.mk (some "call-9") (some "call_function") none (some "print") none
        [{ name := some "arg0", link := some (some "for_loop-8") }] [] [] (some true)]
      [] (some true)],
   [],
   [("items", "assign-1"), ("i", "old-7")],
   [(.call (.name "print") [.name "i"] false, "call-9")],
   9⟩

/-! ## The Link invariant of the decompiler (claim C4, amended)

`MemAvail P s x` says the id `x` is already present somewhere in the state's
node lists or is promised (`P`): promised ids are those of nodes that the
enclosing visitor will append once the current sub-visit returns (the
statement nodes swapped out by `_decompile_body`, and the id of an enclosing
`for` node, which is registered as a provider before the node itself is
appended).  `InvD` is the induction invariant: every registered provider id,
every `expression_map` id and every non-null link stored on an already-built
node is available. -/
def MemAvail (P : List String) (s : DecompState) (x : String) : Prop :=
  x ∈ nodesIds s.statement_nodes ∨ x ∈ nodesIds s.expression_nodes ∨ x ∈ P

def InvD (P : List String) (s : DecompState) : Prop :=
  (∀ p ∈ s.variable_providers, MemAvail P s p.2)
  ∧ (∀ p ∈ s.expression_map, MemAvail P s p.2)
  ∧ (∀ x ∈ nodesLinkTargets s.statement_nodes, MemAvail P s x)
  ∧ (∀ x ∈ nodesLinkTargets s.expression_nodes, MemAvail P s x)

/-- The node lists only ever grow during a visit (within one
`_decompile_body` frame). -/
def Grows (s s' : DecompState) : Prop :=
  (∀ y, y ∈ nodesIds s.statement_nodes → y ∈ nodesIds s'.statement_nodes)
  ∧ (∀ y, y ∈ nodesIds s.expression_nodes → y ∈ nodesIds s'.expression_nodes)

/-! Specifications of the visitor family for the link invariant: a successful
visit preserves `InvD` (with the same promise) and only grows the node lists;
input resolution additionally returns an available link, when non-null. -/
def SE (n : Nat) : Prop :=
  ∀ P s e s', InvD P s → visitExpr n s e = .ok s' → InvD P s' ∧ Grows s s'

def SEL (n : Nat) : Prop :=
  ∀ P s es s', InvD P s → visitExprList n s es = .ok s' → InvD P s' ∧ Grows s s'

def SC (n : Nat) : Prop :=
  ∀ P s e b s', InvD P s → visitCall n s e b = .ok s' → InvD P s' ∧ Grows s s'

def SB (n : Nat) : Prop :=
  ∀ P s e s', InvD P s → visitBinOp n s e = .ok s' → InvD P s' ∧ Grows s s'

def SCmp (n : Nat) : Prop :=
  ∀ P s e s', InvD P s → visitCompare n s e = .ok s' → InvD P s' ∧ Grows s s'

def SI (n : Nat) : Prop :=
  ∀ P s e r, InvD P s → getInputDataFromAst n s e = .ok r →
    InvD P r.1 ∧ Grows s r.1 ∧ (∀ l, inputLinkTarget r.2 = some l → MemAvail P r.1 l)

def SCol (n : Nat) : Prop :=
  ∀ P s args idx r, InvD P s → collectCallInputs n s args idx = .ok r →
    InvD P r.1 ∧ Grows s r.1
      ∧ (∀ i ∈ r.2, ∀ l, inputLinkTarget i = some l → MemAvail P r.1 l)

def SS (n : Nat) : Prop :=
  ∀ P s st s', InvD P s → visitStmt n s st = .ok s' → InvD P s' ∧ Grows s s'

def SSL (n : Nat) : Prop :=
  ∀ P s sts s', InvD P s → visitStmtList n s sts = .ok s' → InvD P s' ∧ Grows s s'

def SA (n : Nat) : Prop :=
  ∀ P s targets v s', InvD P s → visitAssign n s targets v = .ok s' →
    InvD P s' ∧ Grows s s'

def SIfP (n : Nat) : Prop :=
  ∀ P s t b oe s', InvD P s → visitIf n s t b oe = .ok s' → InvD P s' ∧ Grows s s'

def SF (n : Nat) : Prop :=
  ∀ P s tgt it b oe s', InvD P s → visitFor n s tgt it b oe = .ok s' →
    InvD P s' ∧ Grows s s'

def SDB (n : Nat) : Prop :=
  ∀ P s stmts r, InvD P s → decompileBody n s stmts = .ok r →
    r.1.statement_nodes = s.statement_nodes
    ∧ (∀ y, y ∈ nodesIds s.expression_nodes → y ∈ nodesIds r.1.expression_nodes)
    ∧ InvD (P ++ nodesIds r.2) r.1
    ∧ (∀ x ∈ nodesLinkTargets r.2, MemAvail (P ++ nodesIds r.2) r.1 x)

/-- The program `x = 100; print(x)` and its decompiled graph, for the C4
witness. -/
def c4WitnessProgram : List PyStmt :=
  [.assign [.name "x"] (.constant "100"),
   .exprStmt (.call (.name "print") [.name "x"] false)]

def c4WitnessGraph : Graph :=
  ⟨[.mk (some "assign-1") (some "variable_assign") (some "x") none none
      [{ name := some "value", value := some "100" }] [] [] (some true),
    .mk (some "call-2") (some "call_function") none (some "print") none
      [{ name := some "arg0", link := some (some "assign-1") }] [] [] (some true)]⟩

/-! ## Theorems settling the claims, with their supporting lemmas -/

/-- C1: FAILS on the code (code bug).  Decompiling `"x = 100\nprint(x)"` and
compiling the result yields a module whose AST is the single statement
`print(x)`: the assignment is dropped, because `compile` treats the linked
`variable_assign` node as a non-root and never emits it.  The recompiled AST
is not structurally identical to the original two-statement AST, violating
the claim (and the repository's own round-trip test). -/
theorem c1_roundtrip_drops_linked_assignment :
    (decompileProgram 30 c1Program).bind (fun g => compileModule 30 g)
      = .ok [PyStmt.exprStmt (.call (.name "print") [.name "x"] false)]
    ∧ [PyStmt.exprStmt (.call (.name "print") [.name "x"] false)] ≠ c1Program := by
  constructor
  · rfl
  · intro h
    have hlen := congrArg List.length h
    simp [c1Program] at hlen

/-- C2 counterexample: the id `a1` appears as a `Link` target in the graph
(inside a nested statement), so under the claim the set used for root
detection would contain it and the top-level node `a1` would not be emitted;
but the code collects links from top-level inputs only, and `a1`'s statement
`x = 1` IS emitted at top level. -/
theorem c2_counterexample :
    "a1" ∈ nodesLinkTargets c2Graph.nodes
    ∧ compileModule 30 c2Graph
        = .ok [PyStmt.assign [.name "x"] (.constant "1"),
               PyStmt.ifStmt (.constant "True")
                 [.exprStmt (.call (.name "print") [.name "x"] false)] []] := by
  constructor
  · decide
  · rfl

/-- C3: FAILS on the code (code bug).  The `'value'` branch of
`_get_input_as_ast` parses with `ast.parse(mode='eval')`, which accepts any
expression: the call text `print(1)` parses as a `Call` and is emitted into
the generated source instead of being rejected.  (`ast.literal_eval`-style
strictness, which the spec requires for injection safety, is absent.) -/
theorem c3_literal_branch_accepts_call :
    astParseEval "print(1)" = some (.call (.name "print") [.constant "1"] false)
    ∧ compileGraph 30 c3Graph = .ok "x = print(1)" := by
  exact ⟨rfl, rfl⟩

/-- C5: FAILS on the code (code bug).  `_build_expression` falls through
silently on a symbol outside both tables, and `_get_input_as_ast` then hits
`self.expression_cache[link_id]`, raising a bare `KeyError('b1')` — not the
descriptive unsupported-operator `ValueError` the claim (and §7's Malformed-IR
taxonomy) requires. -/
theorem c5_unsupported_operator_keyerror :
    BINOP_MAP "%" = none ∧ CMPOP_MAP "%" = none
    ∧ compileGraph 30 c5Graph = .error (.keyError "b1") := by
  exact ⟨rfl, rfl, rfl⟩

/-- Inversion for `Except` bind: a successful bind means both steps
succeeded. -/
theorem bind_ok_ex {α β : Type} {x : Except PyErr α} {f : α → Except PyErr β} {b : β}
    (h : (x >>= f) = .ok b) : ∃ a, x = .ok a ∧ f a = .ok b := by
  cases x with
  | ok a => exact ⟨a, rfl, h⟩
  | error e => simp [Bind.bind, Except.bind] at h

/-- C4 counterexample: decompiling `x = -5` succeeds and returns a graph
whose assign input is a null link — `visit` on the `UnaryOp` registers
nothing in `expression_map`, and `_get_input_data_from_ast` stores
`expression_map.get(value_node)`, i.e. `None`, as the link.  This refutes
"decompile never returns a graph containing a dangling or null link". -/
theorem c4_counterexample :
    decompileProgram 30 c4Program = .ok ⟨[c4NullLinkNode]⟩
    ∧ c4NullLinkNode.inputs.map InputData.link = [some none] := by
  exact ⟨rfl, rfl⟩

/-- C6 counterexample: this graph contains a node with no `'id'` field, yet
compilation succeeds (output `print()`): `_discover_nodes` hits the
duplicate id `x`, `continue`s without walking that node's `body`, and the
id-less nested node is never examined. -/
theorem c6_counterexample :
    none ∈ (allNodesOfList c6DupGraph.nodes).map GraphNode.id
    ∧ compileGraph 30 c6DupGraph = .ok "print()" := by
  exact ⟨by decide, rfl⟩

/-- C7 counterexample: a chained (multi-target) assignment is NOT rejected —
`visit_Assign` examines only `node.targets[0]`.  `x = y = 1` decompiles
successfully into a single `variable_assign` node for `x`; the target `y` is
silently dropped. -/
theorem c7_counterexample :
    decompileProgram 30 c7ChainedProgram
      = .ok ⟨[.mk (some "assign-1") (some "variable_assign") (some "x") none none
               [{ name := some "value", value := some "1" }] [] [] (some true)]⟩ := by
  exact rfl

/-- C7 amended: an assignment whose *first* target is not a simple name is
rejected with the unsupported-syntax error (provided visiting the value
succeeds, which happens first); in particular the destructuring example
`"x, y = 1, 2"` fails with that error.  Chained assignments with a simple
first name target are accepted (see the counterexample). -/
theorem c7_amended :
    (∀ (fuel : Nat) (s : DecompState) (t0 : PyExpr) (rest : List PyExpr) (v : PyExpr)
       (s1 : DecompState),
       (∀ nm, t0 ≠ .name nm) →
       visitExpr fuel s v = .ok s1 →
       visitAssign (fuel+1) s (t0 :: rest) v
         = .error (.notImplementedError "Unsupported syntax: Assignment to non-simple targets"))
    ∧ decompileProgram 30 c7DestructuringProgram
        = .error (.notImplementedError "Unsupported syntax: Assignment to non-simple targets") := by
  constructor
  · intro fuel s t0 rest v s1 hname hv
    simp only [visitAssign, hv]
    cases t0 with
    | name nm => exact absurd rfl (hname nm)
    | constant t => rfl
    | collection k elts => rfl
    | binOp l op r => rfl
    | compare l ops cs => rfl
    | call f args kw => rfl
    | unaryOp o => rfl
  · rfl

/-- C7 witness: the general part applied to the concrete destructuring
target at fuel 29. -/
theorem c7_amended_witness :
    visitAssign 30 ⟨[], [], [], [], 0⟩
      [.collection .tupleK [.name "x", .name "y"]]
      (.collection .tupleK [.constant "1", .constant "2"])
      = .error (.notImplementedError "Unsupported syntax: Assignment to non-simple targets") :=
  c7_amended.1 29 ⟨[], [], [], [], 0⟩ (.collection .tupleK [.name "x", .name "y"]) []
    (.collection .tupleK [.constant "1", .constant "2"]) ⟨[], [], [], [], 0⟩
    (fun nm h => by cases h) rfl

/-- C8: resolving a `Name` with no entry in `variable_providers` raises
`NameError` (first conjunct, for any state), and the whole decompilation of
`print(x)` aborts with that error and no graph (second conjunct). -/
theorem c8_unbound_name_errors :
    (∀ (fuel : Nat) (s : DecompState) (v : String),
       alookup s.variable_providers v = none →
       getInputDataFromAst (fuel+1) s (.name v)
         = .error (.nameError ("Variable \x27" ++ v ++ "\x27 used before assignment.")))
    ∧ decompileProgram 30 c8Program
        = .error (.nameError "Variable \x27x\x27 used before assignment.") := by
  constructor
  · intro fuel s v h
    simp only [getInputDataFromAst, h]
  · rfl

/-- C8 witness: the general part at a concrete empty state. -/
theorem c8_unbound_name_errors_witness :
    getInputDataFromAst 30 ⟨[], [], [], [], 0⟩ (.name "z")
      = .error (.nameError "Variable \x27z\x27 used before assignment.") :=
  c8_unbound_name_errors.1 29 ⟨[], [], [], [], 0⟩ "z" rfl

/-- C10 counterexample: the empty string is not one of the four
statement-building kinds, yet compiling a graph whose only (unlinked)
top-level node has `"type": ""` is not silent — Python's truthiness guard
`if not node_type:` treats the falsy kind exactly like a missing `'type'`
key, and compilation aborts with the missing-`'type'` `ValueError` instead
of emitting nothing for the node. -/
theorem c10_counterexample :
    ("" : String) ∉
      (["variable_assign", "call_function", "if_statement", "for_loop"] : List String)
    ∧ compileGraph 30 c10EmptyTypeGraph
        = .error (.valueError "Node \x27e1\x27 is missing a \x27type\x27 field.") := by
  exact ⟨by decide, rfl⟩

/-- C10 amended: for any node whose kind is a **non-empty** string outside
the four statement-building kinds, `_build_statement` returns `None` without
error and without touching the state (first conjunct); compiling a graph
whose only top-level node is an unlinked `binary_op` succeeds and emits no
statement at all (second conjunct).  A falsy empty-string kind instead fails
the truthiness type check (see the counterexample). -/
theorem c10_amended :
    (∀ (fuel : Nat) (s : CompState) (n : GraphNode) (nid nt : String),
       n.id = some nid → n.ntype = some nt → nt ≠ "" →
       nt ∉ (["variable_assign", "call_function", "if_statement", "for_loop"] : List String) →
       buildStatement (fuel+1) s n = .ok (s, none))
    ∧ compileGraph 30 c10Graph = .ok "" := by
  constructor
  · intro fuel s n nid nt hid ht hne hnt
    simp only [List.mem_cons, List.mem_singleton, not_or] at hnt
    obtain ⟨h1, h2, h3, h4⟩ := hnt
    simp only [buildStatement, hid, ht]
    by_cases hmem : nid ∈ s.compiled_statements
    · simp [hmem]
    · simp [hmem, hne, h1, h2, h3, h4]
  · rfl

/-- C10 witness: the general part of the amended theorem at the concrete
`binary_op` node. -/
theorem c10_amended_witness :
    buildStatement 30 ⟨[], [], []⟩
      (.mk (some "b1") (some "binary_op") (some "+") none none [] [] [] none)
      = .ok (⟨[], [], []⟩, none) :=
  c10_amended.1 29 ⟨[], [], []⟩
    (.mk (some "b1") (some "binary_op") (some "+") none none [] [] [] none)
    "b1" "binary_op" rfl rfl (by decide) (by decide)

/-- C2 amended: (i) the linked-id set is exactly the link values stored on
the inputs of **top-level** nodes; (ii) a top-level node whose id is in that
set is skipped by the emission loop (not re-emitted); (iii)/(iv) a top-level
node whose id is not in the set has its statement built, and the result is
prepended to the module body exactly when the builder returns one. -/
theorem c2_amended :
    (∀ (nodes : List GraphNode) (lid : Option String),
       lid ∈ collectLinkedIds nodes
         ↔ ∃ n, n ∈ nodes ∧ ∃ i, i ∈ n.inputs ∧ i.link = some lid)
    ∧ (∀ (fuel : Nat) (s : CompState) (linked : List (Option String)) (n : GraphNode)
         (rest : List GraphNode) (nid : String),
         n.id = some nid → some nid ∈ linked →
         emitTop fuel s linked (n :: rest) = emitTop fuel s linked rest)
    ∧ (∀ (fuel : Nat) (s s' : CompState) (linked : List (Option String)) (n : GraphNode)
         (rest : List GraphNode) (nid : String),
         n.id = some nid → some nid ∉ linked →
         buildStatement fuel s n = .ok (s', none) →
         emitTop fuel s linked (n :: rest) = emitTop fuel s' linked rest)
    ∧ (∀ (fuel : Nat) (s s' : CompState) (linked : List (Option String)) (n : GraphNode)
         (rest : List GraphNode) (nid : String) (st : PyStmt),
         n.id = some nid → some nid ∉ linked →
         buildStatement fuel s n = .ok (s', some st) →
         emitTop fuel s linked (n :: rest)
           = (emitTop fuel s' linked rest).map (fun p => (p.1, st :: p.2))) := by
  refine ⟨?_, ?_, ?_, ?_⟩
  · intro nodes lid
    induction nodes with
    | nil => simp [collectLinkedIds]
    | cons n rest ih =>
      simp only [collectLinkedIds, List.foldr_cons, List.mem_append,
        List.mem_filterMap, List.mem_cons] at *
      constructor
      · rintro (⟨i, hi, hl⟩ | h)
        · exact ⟨n, Or.inl rfl, i, hi, hl⟩
        · obtain ⟨n', hn', hi⟩ := ih.mp h
          exact ⟨n', Or.inr hn', hi⟩
      · rintro ⟨n', hmem, i, hi, hl⟩
        rcases hmem with rfl | hn'
        · exact Or.inl ⟨i, hi, hl⟩
        · exact Or.inr (ih.mpr ⟨n', hn', i, hi, hl⟩)
  · intro fuel s linked n rest nid hid hmem
    simp only [emitTop, hid, if_pos hmem]
  · intro fuel s s' linked n rest nid hid hmem hbuild
    simp only [emitTop, hid, if_neg hmem, hbuild]
    cases h2 : emitTop fuel s' linked rest with
    | ok p => simp [Bind.bind, Except.bind, h2]
    | error e => simp [Bind.bind, Except.bind, h2]
  · intro fuel s s' linked n rest nid st hid hmem hbuild
    simp only [emitTop, hid, if_neg hmem, hbuild]
    cases h2 : emitTop fuel s' linked rest with
    | ok p => simp [Bind.bind, Except.bind, Except.map, h2]
    | error e => simp [Bind.bind, Except.bind, Except.map, h2]

/-- C2 witness: the skip equation at the concrete graph of the
counterexample — the call node `c1` links `a1`, and with that link in the
set, the top-level node `a1` is skipped by emission. -/
theorem c2_amended_witness :
    emitTop 30 ⟨[], [], []⟩ [some "a1"] [c2AssignNode] = emitTop 30 ⟨[], [], []⟩ [some "a1"] [] :=
  c2_amended.2.1 30 ⟨[], [], []⟩ [some "a1"] c2AssignNode [] "a1" rfl (by decide)

mutual

/-- Node discovery can only fail with the missing-id `ValueError` (for some
id-less node it reached). -/
theorem discoverNode_error_shape (n : GraphNode) :
    ∀ (m : List (String × GraphNode)) (e : PyErr), discoverNode n m = .error e →
      ∃ n', n'.id = none ∧ e = .valueError (missingIdMsg n') := by
  cases n with
  | mk i t v f tv ins b oe iis =>
    intro m e h
    cases i with
    | none =>
      simp only [discoverNode] at h
      exact ⟨GraphNode.mk none t v f tv ins b oe iis, rfl, (Except.error.inj h).symm⟩
    | some nid =>
      simp only [discoverNode] at h
      by_cases hmem : (alookup m nid).isSome
      · rw [if_pos hmem] at h
        exact absurd h (by simp)
      · rw [if_neg hmem] at h
        cases h1 : discoverNodes b (m ++ [(nid, GraphNode.mk (some nid) t v f tv ins b oe iis)]) with
        | error e1 =>
          rw [h1] at h
          simp only [Bind.bind, Except.bind] at h
          cases h
          exact discoverNodes_error_shape b _ _ h1
        | ok m2 =>
          rw [h1] at h
          simp only [Bind.bind, Except.bind] at h
          exact discoverNodes_error_shape oe _ _ h

theorem discoverNodes_error_shape (l : List GraphNode) :
    ∀ (m : List (String × GraphNode)) (e : PyErr), discoverNodes l m = .error e →
      ∃ n', n'.id = none ∧ e = .valueError (missingIdMsg n') := by
  cases l with
  | nil => intro m e h; exact absurd h (by simp [discoverNodes])
  | cons n rest =>
    intro m e h
    simp only [discoverNodes] at h
    cases h1 : discoverNode n m with
    | error e1 =>
      rw [h1] at h
      simp only [Bind.bind, Except.bind] at h
      cases h
      exact discoverNode_error_shape n _ _ h1
    | ok m1 =>
      rw [h1] at h
      simp only [Bind.bind, Except.bind] at h
      exact discoverNodes_error_shape rest _ _ h

end

/-- A top-level node with no id makes discovery fail, and with a missing-id
error. -/
theorem discoverNodes_missing_id (l : List GraphNode) :
    ∀ (m : List (String × GraphNode)), (∃ n ∈ l, n.id = none) →
      ∃ n', n'.id = none ∧ discoverNodes l m = .error (.valueError (missingIdMsg n')) := by
  induction l with
  | nil => intro m h; simp at h
  | cons n rest ih =>
    intro m ⟨n0, hmem, hid⟩
    rcases List.mem_cons.mp hmem with rfl | hrest
    · cases n0 with
      | mk i t v f tv ins b oe iis =>
        simp only [GraphNode.id] at hid
        subst hid
        exact ⟨GraphNode.mk none t v f tv ins b oe iis, rfl, by simp [discoverNodes, discoverNode, Bind.bind, Except.bind]⟩
    · cases h1 : discoverNode n m with
      | error e1 =>
        obtain ⟨n', hn', he⟩ := discoverNode_error_shape n m e1 h1
        subst he
        exact ⟨n', hn', by simp [discoverNodes, h1, Bind.bind, Except.bind]⟩
      | ok m1 =>
        obtain ⟨n', hn', he⟩ := ih m1 ⟨n0, hrest, hid⟩
        exact ⟨n', hn', by simp [discoverNodes, h1, Bind.bind, Except.bind, he]⟩

/-- C6 amended: (i) a graph with a **top-level** id-less node fails with the
missing-id `ValueError` (whatever the fuel), producing no output; (ii) the
shared `get_input` helper fails, for any node id, kind and slot, with the
error naming both the node id and the missing slot whenever no input carries
that slot name; (iii) the spec's missing-input example fails with the error
naming node id `n1` and slot `test`. -/
theorem c6_amended :
    (∀ (fuel : Nat) (g : Graph), (∃ n ∈ g.nodes, n.id = none) →
       ∃ n', n'.id = none
         ∧ compileGraph fuel g = .error (.valueError (missingIdMsg n')))
    ∧ (∀ (inputs : List InputData) (nid nt slot : String),
        (∀ i ∈ inputs, i.name ≠ some slot) →
        getNamedInput inputs nid nt slot
          = .error (.valueError (missingInputMsg nid nt slot)))
    ∧ compileGraph 30 c6MissingInputGraph
        = .error (.valueError (missingInputMsg "n1" "if_statement" "test")) := by
  refine ⟨?_, ?_, rfl⟩
  · intro fuel g hex
    obtain ⟨n', hn', hdisc⟩ := discoverNodes_missing_id g.nodes [] hex
    exact ⟨n', hn', by simp [compileGraph, compileModule, hdisc, Bind.bind, Except.bind]⟩
  · intro inputs nid nt slot hnone
    have hfind : inputs.find? (fun i => i.name = some slot) = none := by
      rw [List.find?_eq_none]
      intro i hi
      simp [hnone i hi]
    simp [getNamedInput, hfind]

/-- C6 witness: the general part applied to the spec's missing-id example. -/
theorem c6_amended_witness :
    ∃ n', n'.id = none
      ∧ compileGraph 30 c6IdlessGraph = .error (.valueError (missingIdMsg n')) :=
  c6_amended.1 30 c6IdlessGraph
    ⟨.mk none (some "call_function") none (some "print") none [] [] [] none,
     List.mem_singleton.mpr rfl, rfl⟩

theorem pure_eq_ok {α : Type} (a : α) : (pure a : Except PyErr α) = .ok a := rfl

theorem alookup_aset_self {α : Type} (m : List (String × α)) (k : String) (v : α) :
    alookup (aset m k v) k = some v := by
  induction m with
  | nil => simp [aset, alookup]
  | cons p rest ih =>
    by_cases h : p.1 = k
    · simp [aset, alookup, h]
    · simp [aset, alookup, h, ih]

theorem alookup_aerase_self {α : Type} (m : List (String × α)) (k : String) :
    alookup (aerase m k) k = none := by
  induction m with
  | nil => simp [aerase, alookup]
  | cons p rest ih =>
    by_cases h : p.1 = k
    · simpa [aerase, List.filter, h] using ih
    · simpa [aerase, List.filter, h, alookup] using ih

/-- The expression-visitor family never touches `variable_providers`
(providers are written only by `visit_Assign` and `visit_For`, which are
unreachable from expression visits). -/
theorem expr_visitors_providers : ∀ fuel : Nat,
    (∀ s e s', visitExpr fuel s e = .ok s' →
       s'.variable_providers = s.variable_providers)
    ∧ (∀ s es s', visitExprList fuel s es = .ok s' →
       s'.variable_providers = s.variable_providers)
    ∧ (∀ s e b s', visitCall fuel s e b = .ok s' →
       s'.variable_providers = s.variable_providers)
    ∧ (∀ s e s', visitBinOp fuel s e = .ok s' →
       s'.variable_providers = s.variable_providers)
    ∧ (∀ s e s', visitCompare fuel s e = .ok s' →
       s'.variable_providers = s.variable_providers)
    ∧ (∀ s e s' inp, getInputDataFromAst fuel s e = .ok (s', inp) →
       s'.variable_providers = s.variable_providers)
    ∧ (∀ s args idx s' inps, collectCallInputs fuel s args idx = .ok (s', inps) →
       s'.variable_providers = s.variable_providers) := by
  intro fuel
  induction fuel with
  | zero =>
    refine ⟨?_, ?_, ?_, ?_, ?_, ?_, ?_⟩
    · intro s e s' h; exact absurd h (by simp [visitExpr])
    · intro s es s' h; exact absurd h (by simp [visitExprList])
    · intro s e b s' h; exact absurd h (by simp [visitCall])
    · intro s e s' h; exact absurd h (by simp [visitBinOp])
    · intro s e s' h; exact absurd h (by simp [visitCompare])
    · intro s e s' inp h; exact absurd h (by simp [getInputDataFromAst])
    · intro s args idx s' inps h; exact absurd h (by simp [collectCallInputs])
  | succ n ih =>
    obtain ⟨ihE, ihEL, ihC, ihB, ihCmp, ihI, ihCol⟩ := ih
    refine ⟨?_, ?_, ?_, ?_, ?_, ?_, ?_⟩
    · -- visitExpr
      intro s e s' h
      cases e with
      | constant t => simp only [visitExpr] at h; cases h; rfl
      | name i => simp only [visitExpr] at h; cases h; rfl
      | collection k elts => simp only [visitExpr] at h; exact ihEL _ _ _ h
      | unaryOp o => simp only [visitExpr] at h; exact ihE _ _ _ h
      | call f args kw => simp only [visitExpr] at h; exact ihC _ _ _ _ h
      | binOp l op r => simp only [visitExpr] at h; exact ihB _ _ _ h
      | compare l ops cs => simp only [visitExpr] at h; exact ihCmp _ _ _ h
    · -- visitExprList
      intro s es s' h
      cases es with
      | nil => simp only [visitExprList] at h; cases h; rfl
      | cons e rest =>
        simp only [visitExprList] at h
        obtain ⟨s1, h1, h2⟩ := bind_ok_ex h
        exact (ihEL _ _ _ h2).trans (ihE _ _ _ h1)
    · -- visitCall
      intro s e b s' h
      cases e with
      | call func args kw =>
        cases func with
        | name fname =>
          simp only [visitCall] at h
          cases kw with
          | true => simp at h
          | false =>
            simp only [Bool.false_eq_true, if_false, getUniqueId] at h
            obtain ⟨s1, h1, h⟩ := bind_ok_ex h
            obtain ⟨⟨s3, inputs⟩, h2, h⟩ := bind_ok_ex h
            have hv3pre := ihCol _ _ _ _ _ h2
            have hv3 : s3.variable_providers = s1.variable_providers := hv3pre
            cases b with
            | true =>
              simp only [if_true] at h
              cases h
              exact hv3.trans (ihEL _ _ _ h1)
            | false =>
              simp only [Bool.false_eq_true, if_false] at h
              cases h
              exact hv3.trans (ihEL _ _ _ h1)
        | constant t => simp only [visitCall] at h; cases h; rfl
        | collection k elts => simp only [visitCall] at h; cases h; rfl
        | binOp l op r => simp only [visitCall] at h; cases h; rfl
        | compare l ops cs => simp only [visitCall] at h; cases h; rfl
        | call f2 a2 k2 => simp only [visitCall] at h; cases h; rfl
        | unaryOp o => simp only [visitCall] at h; cases h; rfl
      | constant t => simp only [visitCall] at h; cases h; rfl
      | name i => simp only [visitCall] at h; cases h; rfl
      | collection k elts => simp only [visitCall] at h; cases h; rfl
      | binOp l op r => simp only [visitCall] at h; cases h; rfl
      | compare l ops cs => simp only [visitCall] at h; cases h; rfl
      | unaryOp o => simp only [visitCall] at h; cases h; rfl
    · -- visitBinOp
      intro s e s' h
      cases e with
      | binOp l op r =>
        simp only [visitBinOp, getUniqueId] at h
        obtain ⟨s1, h1, h⟩ := bind_ok_ex h
        obtain ⟨s2, h2, h⟩ := bind_ok_ex h
        cases hop : REVERSE_BINOP_MAP op with
        | none =>
          rw [hop] at h
          obtain ⟨s4, h4, h5⟩ := bind_ok_ex h
          calc s'.variable_providers
              = s4.variable_providers := ihE _ _ _ h5
            _ = s2.variable_providers := by
                have := ihE _ _ _ h4; simpa using this
            _ = s1.variable_providers := ihE _ _ _ h2
            _ = s.variable_providers := ihE _ _ _ h1
        | some opStr =>
          rw [hop] at h
          obtain ⟨⟨s4, li⟩, h4, h⟩ := bind_ok_ex h
          obtain ⟨⟨s5, ri⟩, h5, h⟩ := bind_ok_ex h
          cases h
          calc s5.variable_providers
              = s4.variable_providers := ihI _ _ _ _ h5
            _ = s2.variable_providers := by
                have := ihI _ _ _ _ h4; simpa using this
            _ = s1.variable_providers := ihE _ _ _ h2
            _ = s.variable_providers := ihE _ _ _ h1
      | constant t => simp only [visitBinOp] at h; cases h; rfl
      | name i => simp only [visitBinOp] at h; cases h; rfl
      | collection k elts => simp only [visitBinOp] at h; cases h; rfl
      | compare l ops cs => simp only [visitBinOp] at h; cases h; rfl
      | call f args kw => simp only [visitBinOp] at h; cases h; rfl
      | unaryOp o => simp only [visitBinOp] at h; cases h; rfl
    · -- visitCompare
      intro s e s' h
      cases e with
      | compare l ops cs =>
        simp only [visitCompare] at h
        obtain ⟨s1, h1, h⟩ := bind_ok_ex h
        cases cs with
        | nil => simp at h
        | cons c0 crest =>
          simp only [] at h
          obtain ⟨s2, h2, h⟩ := bind_ok_ex h
          have hbase : s2.variable_providers = s.variable_providers :=
            (ihE _ _ _ h2).trans (ihE _ _ _ h1)
          cases ops with
          | nil =>
            obtain ⟨s4, h4, h5⟩ := bind_ok_ex h
            calc s'.variable_providers
                = s4.variable_providers := ihEL _ _ _ h5
              _ = s2.variable_providers := ihE _ _ _ h4
              _ = s.variable_providers := hbase
          | cons op0 oprest =>
            cases oprest with
            | nil =>
              simp only [getUniqueId] at h
              cases hop : REVERSE_CMPOP_MAP op0 with
              | none =>
                rw [hop] at h
                obtain ⟨s4, h4, h5⟩ := bind_ok_ex h
                calc s'.variable_providers
                    = s4.variable_providers := ihEL _ _ _ h5
                  _ = s2.variable_providers := by
                      have := ihE _ _ _ h4; simpa using this
                  _ = s.variable_providers := hbase
              | some opStr =>
                rw [hop] at h
                obtain ⟨⟨s4, li⟩, h4, h⟩ := bind_ok_ex h
                obtain ⟨⟨s5, ri⟩, h5, h⟩ := bind_ok_ex h
                cases h
                calc s5.variable_providers
                    = s4.variable_providers := ihI _ _ _ _ h5
                  _ = s2.variable_providers := by
                      have := ihI _ _ _ _ h4; simpa using this
                  _ = s.variable_providers := hbase
            | cons op1 oprest2 =>
              obtain ⟨s4, h4, h5⟩ := bind_ok_ex h
              calc s'.variable_providers
                  = s4.variable_providers := ihEL _ _ _ h5
                _ = s2.variable_providers := ihE _ _ _ h4
                _ = s.variable_providers := hbase
      | constant t => simp only [visitCompare] at h; cases h; rfl
      | name i => simp only [visitCompare] at h; cases h; rfl
      | collection k elts => simp only [visitCompare] at h; cases h; rfl
      | binOp l op r => simp only [visitCompare] at h; cases h; rfl
      | call f args kw => simp only [visitCompare] at h; cases h; rfl
      | unaryOp o => simp only [visitCompare] at h; cases h; rfl
    · -- getInputDataFromAst
      intro s e s' inp h
      cases e with
      | constant t => simp only [getInputDataFromAst] at h; cases h; rfl
      | name v =>
        simp only [getInputDataFromAst] at h
        cases hl : alookup s.variable_providers v with
        | some pid => rw [hl] at h; cases h; rfl
        | none => rw [hl] at h; simp at h
      | collection k elts => simp only [getInputDataFromAst] at h; cases h; rfl
      | binOp l op r =>
        simp only [getInputDataFromAst] at h
        by_cases hc : (elookup s.expression_map (.binOp l op r)).isSome
        · rw [if_pos hc] at h
          simp only [pure_eq_ok, Bind.bind, Except.bind] at h
          cases h; rfl
        · rw [if_neg hc] at h
          obtain ⟨s1, h1, h2⟩ := bind_ok_ex h
          cases h2
          exact ihE _ _ _ h1
      | compare l ops cs =>
        simp only [getInputDataFromAst] at h
        by_cases hc : (elookup s.expression_map (.compare l ops cs)).isSome
        · rw [if_pos hc] at h
          simp only [pure_eq_ok, Bind.bind, Except.bind] at h
          cases h; rfl
        · rw [if_neg hc] at h
          obtain ⟨s1, h1, h2⟩ := bind_ok_ex h
          cases h2
          exact ihE _ _ _ h1
      | call f args kw =>
        simp only [getInputDataFromAst] at h
        by_cases hc : (elookup s.expression_map (.call f args kw)).isSome
        · rw [if_pos hc] at h
          simp only [pure_eq_ok, Bind.bind, Except.bind] at h
          cases h; rfl
        · rw [if_neg hc] at h
          obtain ⟨s1, h1, h2⟩ := bind_ok_ex h
          cases h2
          exact ihE _ _ _ h1
      | unaryOp o =>
        simp only [getInputDataFromAst] at h
        by_cases hc : (elookup s.expression_map (.unaryOp o)).isSome
        · rw [if_pos hc] at h
          simp only [pure_eq_ok, Bind.bind, Except.bind] at h
          cases h; rfl
        · rw [if_neg hc] at h
          obtain ⟨s1, h1, h2⟩ := bind_ok_ex h
          cases h2
          exact ihE _ _ _ h1
    · -- collectCallInputs
      intro s args idx s' inps h
      cases args with
      | nil => simp only [collectCallInputs] at h; cases h; rfl
      | cons a rest =>
        simp only [collectCallInputs] at h
        obtain ⟨⟨s1, i1⟩, h1, h⟩ := bind_ok_ex h
        obtain ⟨⟨s2, i2⟩, h2, h⟩ := bind_ok_ex h
        cases h
        exact (ihCol _ _ _ _ _ h2).trans (ihI _ _ _ _ h1)

/-- C9: for every for-loop the decompiler accepts (simple name target, no
`else` clause), the provider-map entry of the loop variable after the visit
equals what it was before: restored when a (non-empty, as `_get_unique_id`
always produces) previous provider existed, removed otherwise — whatever the
body did to it. -/
theorem c9_for_restores_provider :
    ∀ (fuel : Nat) (s : DecompState) (tvar : String) (it : PyExpr)
      (b : List PyStmt) (s' : DecompState),
      alookup s.variable_providers tvar ≠ some "" →
      visitFor fuel s (.name tvar) it b [] = .ok s' →
      alookup s'.variable_providers tvar = alookup s.variable_providers tvar := by
  intro fuel s tvar it b s' hne h
  cases fuel with
  | zero => exact absurd h (by simp [visitFor])
  | succ n =>
    simp only [visitFor, List.isEmpty_nil, Bool.not_true, Bool.false_eq_true, if_false,
      getUniqueId] at h
    obtain ⟨s2, h2, h⟩ := bind_ok_ex h
    obtain ⟨⟨s3, iinp⟩, h3, h⟩ := bind_ok_ex h
    obtain ⟨⟨s5, bodyNodes⟩, h5, h⟩ := bind_ok_ex h
    cases h
    have hp2pre := (expr_visitors_providers n).1 _ _ _ h2
    have hp2 : s2.variable_providers = s.variable_providers := hp2pre
    have hp3 : s3.variable_providers = s.variable_providers :=
      ((expr_visitors_providers n).2.2.2.2.2.1 _ _ _ _ h3).trans hp2
    dsimp only
    rw [hp3]
    cases hp : alookup s.variable_providers tvar with
    | none =>
      dsimp only
      simpa using alookup_aerase_self s5.variable_providers tvar
    | some p =>
      rw [hp] at hne
      dsimp only
      have hpne : ¬p = "" := fun hcontra => hne (by rw [hcontra])
      simp only [hpne, if_false]
      simpa using alookup_aset_self s5.variable_providers tvar p

/-- C9 witness: the theorem applied to the concrete loop
`for i in items: print(i)` — the binding of `i` is `old-7` before and after,
even though the body linked `i` to the `for` node. -/
theorem c9_for_restores_provider_witness :
    alookup c9OutState.variable_providers "i" = alookup c9InState.variable_providers "i" :=
  c9_for_restores_provider 30 c9InState "i" (.name "items")
    [.exprStmt (.call (.name "print") [.name "i"] false)] c9OutState
    (by decide) rfl

theorem grows_refl (s : DecompState) : Grows s s :=
  ⟨fun _ h => h, fun _ h => h⟩

theorem grows_trans {s1 s2 s3 : DecompState} (h1 : Grows s1 s2) (h2 : Grows s2 s3) :
    Grows s1 s3 :=
  ⟨fun y h => h2.1 y (h1.1 y h), fun y h => h2.2 y (h1.2 y h)⟩

theorem memAvail_mono {P P' : List String} {s s' : DecompState} {x : String}
    (h : MemAvail P s x) (hg : Grows s s') (hp : ∀ y ∈ P, y ∈ P') :
    MemAvail P' s' x := by
  rcases h with h | h | h
  · exact Or.inl (hg.1 x h)
  · exact Or.inr (Or.inl (hg.2 x h))
  · exact Or.inr (Or.inr (hp x h))

theorem nodesIds_append (l l' : List GraphNode) :
    nodesIds (l ++ l') = nodesIds l ++ nodesIds l' := by
  induction l with
  | nil => simp [nodesIds]
  | cons n rest ih => simp [nodesIds, ih, List.append_assoc]

theorem nodesLinkTargets_append (l l' : List GraphNode) :
    nodesLinkTargets (l ++ l') = nodesLinkTargets l ++ nodesLinkTargets l' := by
  induction l with
  | nil => simp [nodesLinkTargets]
  | cons n rest ih => simp [nodesLinkTargets, ih, List.append_assoc]

theorem alookup_mem {α : Type} {m : List (String × α)} {k : String} {v : α}
    (h : alookup m k = some v) : (k, v) ∈ m := by
  induction m with
  | nil => simp [alookup] at h
  | cons p rest ih =>
    simp only [alookup] at h
    by_cases hk : p.1 = k
    · rw [if_pos hk] at h
      have hv : p.2 = v := Option.some.inj h
      have hp : (k, v) = p := by rw [← hk, ← hv]
      rw [hp]
      exact List.mem_cons_self _ _
    · rw [if_neg hk] at h
      exact List.mem_cons_of_mem _ (ih h)

theorem mem_aset {α : Type} {m : List (String × α)} {k : String} {v : α}
    {p : String × α} (h : p ∈ aset m k v) : p ∈ m ∨ p = (k, v) := by
  induction m with
  | nil => simpa [aset] using h
  | cons q rest ih =>
    by_cases hk : q.1 = k
    · simp only [aset, hk, if_pos] at h
      rcases List.mem_cons.mp h with rfl | h
      · exact Or.inr (by rw [← hk])
      · exact Or.inl (List.mem_cons_of_mem _ h)
    · simp only [aset, hk, if_neg, not_false_iff] at h
      rcases List.mem_cons.mp h with rfl | h
      · exact Or.inl (List.mem_cons_self _ _)
      · rcases ih h with h | h
        · exact Or.inl (List.mem_cons_of_mem _ h)
        · exact Or.inr h

theorem mem_aerase {α : Type} {m : List (String × α)} {k : String}
    {p : String × α} (h : p ∈ aerase m k) : p ∈ m :=
  List.mem_of_mem_filter h

theorem mem_eset {m : List (PyExpr × String)} {e : PyExpr} {v : String}
    {p : PyExpr × String} (h : p ∈ eset m e v) : p ∈ m ∨ p.2 = v := by
  induction m with
  | nil =>
    simp only [eset] at h
    rcases List.mem_cons.mp h with rfl | h
    · exact Or.inr rfl
    · simp at h
  | cons q rest ih =>
    simp only [eset] at h
    by_cases hk : beqExpr q.1 e
    · rw [if_pos hk] at h
      rcases List.mem_cons.mp h with rfl | h
      · exact Or.inr rfl
      · exact Or.inl (List.mem_cons_of_mem _ h)
    · rw [if_neg hk] at h
      rcases List.mem_cons.mp h with rfl | h
      · exact Or.inl (List.mem_cons_self _ _)
      · rcases ih h with h | h
        · exact Or.inl (List.mem_cons_of_mem _ h)
        · exact Or.inr h

theorem elookup_mem {m : List (PyExpr × String)} {e : PyExpr} {v : String}
    (h : elookup m e = some v) : ∃ p ∈ m, p.2 = v := by
  induction m with
  | nil => simp [elookup] at h
  | cons p rest ih =>
    simp only [elookup] at h
    by_cases hk : beqExpr p.1 e
    · rw [if_pos hk] at h
      exact ⟨p, List.mem_cons_self _ _, Option.some.inj h⟩
    · rw [if_neg hk] at h
      obtain ⟨q, hq, hv⟩ := ih h
      exact ⟨q, List.mem_cons_of_mem _ hq, hv⟩

theorem invD_promise_mono {P P' : List String} {s : DecompState}
    (h : InvD P s) (hp : ∀ y ∈ P, y ∈ P') : InvD P' s := by
  obtain ⟨h1, h2, h3, h4⟩ := h
  exact ⟨fun p hp' => memAvail_mono (h1 p hp') (grows_refl s) hp,
         fun p hp' => memAvail_mono (h2 p hp') (grows_refl s) hp,
         fun x hx => memAvail_mono (h3 x hx) (grows_refl s) hp,
         fun x hx => memAvail_mono (h4 x hx) (grows_refl s) hp⟩

theorem invD_aset_provider {P : List String} {s : DecompState} {v pid : String}
    (h : InvD P s) (hpid : MemAvail P s pid) :
    InvD P { s with variable_providers := aset s.variable_providers v pid } := by
  obtain ⟨h1, h2, h3, h4⟩ := h
  refine ⟨?_, h2, h3, h4⟩
  intro p hp
  rcases mem_aset hp with hp | rfl
  · exact h1 p hp
  · exact hpid

theorem invD_aerase_provider {P : List String} {s : DecompState} {v : String}
    (h : InvD P s) :
    InvD P { s with variable_providers := aerase s.variable_providers v } := by
  obtain ⟨h1, h2, h3, h4⟩ := h
  exact ⟨fun p hp => h1 p (mem_aerase hp), h2, h3, h4⟩

theorem invD_set_providers {P : List String} {s : DecompState}
    {m : List (String × String)}
    (h : InvD P s) (hm : ∀ p ∈ m, MemAvail P s p.2) :
    InvD P { s with variable_providers := m } := by
  obtain ⟨_, h2, h3, h4⟩ := h
  exact ⟨hm, h2, h3, h4⟩

theorem invD_eset_map {P : List String} {s : DecompState} {e : PyExpr} {pid : String}
    (h : InvD P s) (hpid : MemAvail P s pid) :
    InvD P { s with expression_map := eset s.expression_map e pid } := by
  obtain ⟨h1, h2, h3, h4⟩ := h
  refine ⟨h1, ?_, h3, h4⟩
  intro p hp
  rcases mem_eset hp with hp | hv
  · exact h2 p hp
  · rw [hv]
    exact hpid

theorem mem_nodesIds_single {x : String} {node : GraphNode} (h : x ∈ nodeIds node) :
    x ∈ nodesIds [node] := by
  simp [nodesIds]
  exact h

/-- Appending one node to `statement_nodes` discharges the promised ids that
node carries (`extra`), provided the node's own links were available under
the extended promise. -/
theorem invD_append_stmt {P extra : List String} {s : DecompState} {node : GraphNode}
    (h : InvD (P ++ extra) s)
    (hlinks : ∀ x ∈ nodeLinkTargets node, MemAvail (P ++ extra) s x)
    (hextra : ∀ y ∈ extra, y ∈ nodeIds node) :
    InvD P { s with statement_nodes := s.statement_nodes ++ [node] }
    ∧ Grows s { s with statement_nodes := s.statement_nodes ++ [node] } := by
  have hgrow : Grows s { s with statement_nodes := s.statement_nodes ++ [node] } := by
    constructor
    · intro y hy
      show y ∈ nodesIds (s.statement_nodes ++ [node])
      rw [nodesIds_append]
      exact List.mem_append_left _ hy
    · intro y hy
      exact hy
  have hshift : ∀ x, MemAvail (P ++ extra) s x →
      MemAvail P { s with statement_nodes := s.statement_nodes ++ [node] } x := by
    intro x hx
    rcases hx with hx | hx | hx
    · exact Or.inl (hgrow.1 x hx)
    · exact Or.inr (Or.inl hx)
    · rcases List.mem_append.mp hx with hx | hx
      · exact Or.inr (Or.inr hx)
      · refine Or.inl ?_
        show x ∈ nodesIds (s.statement_nodes ++ [node])
        rw [nodesIds_append]
        exact List.mem_append_right _ (mem_nodesIds_single (hextra x hx))
  obtain ⟨h1, h2, h3, h4⟩ := h
  refine ⟨⟨fun p hp => hshift _ (h1 p hp), fun p hp => hshift _ (h2 p hp), ?_,
    fun x hx => hshift _ (h4 x hx)⟩, hgrow⟩
  intro x hx
  have hx' : x ∈ nodesLinkTargets (s.statement_nodes ++ [node]) := hx
  rw [nodesLinkTargets_append] at hx'
  rcases List.mem_append.mp hx' with hx' | hx'
  · exact hshift _ (h3 x hx')
  · have : x ∈ nodeLinkTargets node := by simpa [nodesLinkTargets] using hx'
    exact hshift _ (hlinks x this)

/-- The expression-list variant of `invD_append_stmt`. -/
theorem invD_append_expr {P extra : List String} {s : DecompState} {node : GraphNode}
    (h : InvD (P ++ extra) s)
    (hlinks : ∀ x ∈ nodeLinkTargets node, MemAvail (P ++ extra) s x)
    (hextra : ∀ y ∈ extra, y ∈ nodeIds node) :
    InvD P { s with expression_nodes := s.expression_nodes ++ [node] }
    ∧ Grows s { s with expression_nodes := s.expression_nodes ++ [node] } := by
  have hgrow : Grows s { s with expression_nodes := s.expression_nodes ++ [node] } := by
    constructor
    · intro y hy
      exact hy
    · intro y hy
      show y ∈ nodesIds (s.expression_nodes ++ [node])
      rw [nodesIds_append]
      exact List.mem_append_left _ hy
  have hshift : ∀ x, MemAvail (P ++ extra) s x →
      MemAvail P { s with expression_nodes := s.expression_nodes ++ [node] } x := by
    intro x hx
    rcases hx with hx | hx | hx
    · exact Or.inl hx
    · exact Or.inr (Or.inl (hgrow.2 x hx))
    · rcases List.mem_append.mp hx with hx | hx
      · exact Or.inr (Or.inr hx)
      · refine Or.inr (Or.inl ?_)
        show x ∈ nodesIds (s.expression_nodes ++ [node])
        rw [nodesIds_append]
        exact List.mem_append_right _ (mem_nodesIds_single (hextra x hx))
  obtain ⟨h1, h2, h3, h4⟩ := h
  refine ⟨⟨fun p hp => hshift _ (h1 p hp), fun p hp => hshift _ (h2 p hp),
    fun x hx => hshift _ (h3 x hx), ?_⟩, hgrow⟩
  intro x hx
  have hx' : x ∈ nodesLinkTargets (s.expression_nodes ++ [node]) := hx
  rw [nodesLinkTargets_append] at hx'
  rcases List.mem_append.mp hx' with hx' | hx'
  · exact hshift _ (h4 x hx')
  · have : x ∈ nodeLinkTargets node := by simpa [nodesLinkTargets] using hx'
    exact hshift _ (hlinks x this)

theorem step_SE {n : Nat} (ihEL : SEL n) (ihE : SE n) (ihC : SC n) (ihB : SB n)
    (ihCmp : SCmp n) : SE (n+1) := by
  intro P s e s' hInv h
  cases e with
  | constant t => simp only [visitExpr] at h; cases h; exact ⟨hInv, grows_refl s⟩
  | name i => simp only [visitExpr] at h; cases h; exact ⟨hInv, grows_refl s⟩
  | collection k elts => simp only [visitExpr] at h; exact ihEL _ _ _ _ hInv h
  | unaryOp o => simp only [visitExpr] at h; exact ihE _ _ _ _ hInv h
  | call f args kw => simp only [visitExpr] at h; exact ihC _ _ _ _ _ hInv h
  | binOp l op r => simp only [visitExpr] at h; exact ihB _ _ _ _ hInv h
  | compare l ops cs => simp only [visitExpr] at h; exact ihCmp _ _ _ _ hInv h

theorem step_SEL {n : Nat} (ihE : SE n) (ihEL : SEL n) : SEL (n+1) := by
  intro P s es s' hInv h
  cases es with
  | nil => simp only [visitExprList] at h; cases h; exact ⟨hInv, grows_refl s⟩
  | cons e rest =>
    simp only [visitExprList] at h
    obtain ⟨s1, h1, h2⟩ := bind_ok_ex h
    obtain ⟨hInv1, hg1⟩ := ihE _ _ _ _ hInv h1
    obtain ⟨hInv2, hg2⟩ := ihEL _ _ _ _ hInv1 h2
    exact ⟨hInv2, grows_trans hg1 hg2⟩

theorem step_SI {n : Nat} (ihE : SE n) : SI (n+1) := by
  intro P s e r hInv h
  cases e with
  | constant t =>
    simp only [getInputDataFromAst] at h
    cases h
    refine ⟨hInv, grows_refl s, ?_⟩
    intro l hl
    simp [inputLinkTarget] at hl
  | name v =>
    simp only [getInputDataFromAst] at h
    cases hl : alookup s.variable_providers v with
    | some pid =>
      rw [hl] at h
      cases h
      refine ⟨hInv, grows_refl s, ?_⟩
      intro l hml
      simp only [inputLinkTarget] at hml
      cases hml
      exact hInv.1 _ (alookup_mem hl)
    | none => rw [hl] at h; simp at h
  | collection k elts =>
    simp only [getInputDataFromAst] at h
    cases h
    refine ⟨hInv, grows_refl s, ?_⟩
    intro l hl
    simp [inputLinkTarget] at hl
  | binOp l op rr =>
    simp only [getInputDataFromAst] at h
    by_cases hc : (elookup s.expression_map (.binOp l op rr)).isSome
    · rw [if_pos hc] at h
      simp only [pure_eq_ok, Bind.bind, Except.bind] at h
      cases h
      refine ⟨hInv, grows_refl s, ?_⟩
      intro x hx
      simp only [inputLinkTarget] at hx
      cases hel : elookup s.expression_map (.binOp l op rr) with
      | none => rw [hel] at hx; simp at hx
      | some pid =>
        rw [hel] at hx
        cases hx
        obtain ⟨p, hp, hv⟩ := elookup_mem hel
        have := hInv.2.1 p hp
        rw [hv] at this
        exact this
    · rw [if_neg hc] at h
      obtain ⟨s1, h1, h2⟩ := bind_ok_ex h
      cases h2
      obtain ⟨hInv1, hg1⟩ := ihE _ _ _ _ hInv h1
      refine ⟨hInv1, hg1, ?_⟩
      intro x hx
      simp only [inputLinkTarget] at hx
      cases hel : elookup s1.expression_map (.binOp l op rr) with
      | none => rw [hel] at hx; simp at hx
      | some pid =>
        rw [hel] at hx
        cases hx
        obtain ⟨p, hp, hv⟩ := elookup_mem hel
        have := hInv1.2.1 p hp
        rw [hv] at this
        exact this
  | compare l ops cs =>
    simp only [getInputDataFromAst] at h
    by_cases hc : (elookup s.expression_map (.compare l ops cs)).isSome
    · rw [if_pos hc] at h
      simp only [pure_eq_ok, Bind.bind, Except.bind] at h
      cases h
      refine ⟨hInv, grows_refl s, ?_⟩
      intro x hx
      simp only [inputLinkTarget] at hx
      cases hel : elookup s.expression_map (.compare l ops cs) with
      | none => rw [hel] at hx; simp at hx
      | some pid =>
        rw [hel] at hx
        cases hx
        obtain ⟨p, hp, hv⟩ := elookup_mem hel
        have := hInv.2.1 p hp
        rw [hv] at this
        exact this
    · rw [if_neg hc] at h
      obtain ⟨s1, h1, h2⟩ := bind_ok_ex h
      cases h2
      obtain ⟨hInv1, hg1⟩ := ihE _ _ _ _ hInv h1
      refine ⟨hInv1, hg1, ?_⟩
      intro x hx
      simp only [inputLinkTarget] at hx
      cases hel : elookup s1.expression_map (.compare l ops cs) with
      | none => rw [hel] at hx; simp at hx
      | some pid =>
        rw [hel] at hx
        cases hx
        obtain ⟨p, hp, hv⟩ := elookup_mem hel
        have := hInv1.2.1 p hp
        rw [hv] at this
        exact this
  | call f args kw =>
    simp only [getInputDataFromAst] at h
    by_cases hc : (elookup s.expression_map (.call f args kw)).isSome
    · rw [if_pos hc] at h
      simp only [pure_eq_ok, Bind.bind, Except.bind] at h
      cases h
      refine ⟨hInv, grows_refl s, ?_⟩
      intro x hx
      simp only [inputLinkTarget] at hx
      cases hel : elookup s.expression_map (.call f args kw) with
      | none => rw [hel] at hx; simp at hx
      | some pid =>
        rw [hel] at hx
        cases hx
        obtain ⟨p, hp, hv⟩ := elookup_mem hel
        have := hInv.2.1 p hp
        rw [hv] at this
        exact this
    · rw [if_neg hc] at h
      obtain ⟨s1, h1, h2⟩ := bind_ok_ex h
      cases h2
      obtain ⟨hInv1, hg1⟩ := ihE _ _ _ _ hInv h1
      refine ⟨hInv1, hg1, ?_⟩
      intro x hx
      simp only [inputLinkTarget] at hx
      cases hel : elookup s1.expression_map (.call f args kw) with
      | none => rw [hel] at hx; simp at hx
      | some pid =>
        rw [hel] at hx
        cases hx
        obtain ⟨p, hp, hv⟩ := elookup_mem hel
        have := hInv1.2.1 p hp
        rw [hv] at this
        exact this
  | unaryOp o =>
    simp only [getInputDataFromAst] at h
    by_cases hc : (elookup s.expression_map (.unaryOp o)).isSome
    · rw [if_pos hc] at h
      simp only [pure_eq_ok, Bind.bind, Except.bind] at h
      cases h
      refine ⟨hInv, grows_refl s, ?_⟩
      intro x hx
      simp only [inputLinkTarget] at hx
      cases hel : elookup s.expression_map (.unaryOp o) with
      | none => rw [hel] at hx; simp at hx
      | some pid =>
        rw [hel] at hx
        cases hx
        obtain ⟨p, hp, hv⟩ := elookup_mem hel
        have := hInv.2.1 p hp
        rw [hv] at this
        exact this
    · rw [if_neg hc] at h
      obtain ⟨s1, h1, h2⟩ := bind_ok_ex h
      cases h2
      obtain ⟨hInv1, hg1⟩ := ihE _ _ _ _ hInv h1
      refine ⟨hInv1, hg1, ?_⟩
      intro x hx
      simp only [inputLinkTarget] at hx
      cases hel : elookup s1.expression_map (.unaryOp o) with
      | none => rw [hel] at hx; simp at hx
      | some pid =>
        rw [hel] at hx
        cases hx
        obtain ⟨p, hp, hv⟩ := elookup_mem hel
        have := hInv1.2.1 p hp
        rw [hv] at this
        exact this

theorem nodeLinkTargets_leaf (i t v f tv : Option String) (ins : List InputData)
    (iis : Option Bool) :
    nodeLinkTargets (GraphNode.mk i t v f tv ins [] [] iis)
      = ins.filterMap inputLinkTarget := by
  simp [nodeLinkTargets, nodesLinkTargets]

theorem nodeIds_leaf (nid : String) (t v f tv : Option String) (ins : List InputData)
    (iis : Option Bool) :
    nodeIds (GraphNode.mk (some nid) t v f tv ins [] [] iis) = [nid] := by
  simp [nodeIds, nodesIds]

theorem step_SCol {n : Nat} (ihI : SI n) (ihCol : SCol n) : SCol (n+1) := by
  intro P s args idx r hInv h
  cases args with
  | nil =>
    simp only [collectCallInputs] at h
    cases h
    exact ⟨hInv, grows_refl s, by simp⟩
  | cons a rest =>
    simp only [collectCallInputs] at h
    obtain ⟨⟨s1, i1⟩, h1, h⟩ := bind_ok_ex h
    obtain ⟨⟨s2, i2⟩, h2, h⟩ := bind_ok_ex h
    cases h
    obtain ⟨hInv1, hg1, hl1⟩ := ihI _ _ _ _ hInv h1
    obtain ⟨hInv2, hg2, hl2⟩ := ihCol _ _ _ _ _ hInv1 h2
    refine ⟨hInv2, grows_trans hg1 hg2, ?_⟩
    intro i hi l hl
    rcases List.mem_cons.mp hi with rfl | hi
    · have hl' : inputLinkTarget i1 = some l := hl
      exact memAvail_mono (hl1 _ hl') hg2 (fun y hy => hy)
    · exact hl2 _ hi _ hl

theorem step_SC {n : Nat} (ihEL : SEL n) (ihCol : SCol n) : SC (n+1) := by
  intro P s e b s' hInv h
  cases e with
  | call func args kw =>
    cases func with
    | name fname =>
      simp only [visitCall] at h
      cases kw with
      | true => simp at h
      | false =>
        simp only [Bool.false_eq_true, if_false, getUniqueId] at h
        obtain ⟨s1, h1, h⟩ := bind_ok_ex h
        obtain ⟨⟨s3, inputs⟩, h2, h⟩ := bind_ok_ex h
        obtain ⟨hInv1, hg1⟩ := ihEL _ _ _ _ hInv h1
        have hInv2 : InvD P { s1 with node_count := s1.node_count + 1 } := hInv1
        obtain ⟨hInv3, hg3, hl3⟩ := ihCol _ _ _ _ _ hInv2 h2
        have hg3' : Grows s1 s3 := hg3
        have hInv3' : InvD (P ++ []) s3 := by rw [List.append_nil]; exact hInv3
        have hlinks : ∀ x ∈ nodeLinkTargets (GraphNode.mk
            (some ("call" ++ "-" ++ toString (s1.node_count + 1))) (some "call_function")
            none (some fname) none inputs [] [] (some b)),
            MemAvail (P ++ []) s3 x := by
          intro x hx
          rw [nodeLinkTargets_leaf] at hx
          obtain ⟨i, hi, hit⟩ := List.mem_filterMap.mp hx
          have := hl3 i hi x hit
          rw [List.append_nil]
          exact this
        have hextra : ∀ y ∈ ([] : List String), y ∈ nodeIds (GraphNode.mk
            (some ("call" ++ "-" ++ toString (s1.node_count + 1))) (some "call_function")
            none (some fname) none inputs [] [] (some b)) := by
          intro y hy
          simp at hy
        cases b with
        | true =>
          simp only [if_true] at h
          obtain ⟨hInv4, hg4⟩ := invD_append_stmt hInv3' hlinks hextra
          have hnid : MemAvail P { s3 with statement_nodes := s3.statement_nodes
              ++ [GraphNode.mk (some ("call" ++ "-" ++ toString (s1.node_count + 1)))
                   (some "call_function") none (some fname) none inputs [] [] (some true)] }
              ("call" ++ "-" ++ toString (s1.node_count + 1)) := by
            refine Or.inl ?_
            show _ ∈ nodesIds (s3.statement_nodes ++ [_])
            rw [nodesIds_append]
            refine List.mem_append_right _ ?_
            rw [show nodesIds [GraphNode.mk (some ("call" ++ "-" ++ toString (s1.node_count + 1)))
                 (some "call_function") none (some fname) none inputs [] [] (some true)]
               = nodeIds (GraphNode.mk (some ("call" ++ "-" ++ toString (s1.node_count + 1)))
                 (some "call_function") none (some fname) none inputs [] [] (some true)) ++ []
               from by simp [nodesIds]]
            rw [nodeIds_leaf]
            simp
          cases h
          refine ⟨invD_eset_map hInv4 hnid, ?_⟩
          have hg5 : Grows s3 { s3 with statement_nodes := s3.statement_nodes
              ++ [GraphNode.mk (some ("call" ++ "-" ++ toString (s1.node_count + 1)))
                   (some "call_function") none (some fname) none inputs [] [] (some true)] } := hg4
          exact grows_trans hg1 (grows_trans hg3' hg5)
        | false =>
          simp only [Bool.false_eq_true, if_false] at h
          obtain ⟨hInv4, hg4⟩ := invD_append_expr hInv3' hlinks hextra
          have hnid : MemAvail P { s3 with expression_nodes := s3.expression_nodes
              ++ [GraphNode.mk (some ("call" ++ "-" ++ toString (s1.node_count + 1)))
                   (some "call_function") none (some fname) none inputs [] [] (some false)] }
              ("call" ++ "-" ++ toString (s1.node_count + 1)) := by
            refine Or.inr (Or.inl ?_)
            show _ ∈ nodesIds (s3.expression_nodes ++ [_])
            rw [nodesIds_append]
            refine List.mem_append_right _ ?_
            rw [show nodesIds [GraphNode.mk (some ("call" ++ "-" ++ toString (s1.node_count + 1)))
                 (some "call_function") none (some fname) none inputs [] [] (some false)]
               = nodeIds (GraphNode.mk (some ("call" ++ "-" ++ toString (s1.node_count + 1)))
                 (some "call_function") none (some fname) none inputs [] [] (some false)) ++ []
               from by simp [nodesIds]]
            rw [nodeIds_leaf]
            simp
          cases h
          refine ⟨invD_eset_map hInv4 hnid, ?_⟩
          have hg5 : Grows s3 { s3 with expression_nodes := s3.expression_nodes
              ++ [GraphNode.mk (some ("call" ++ "-" ++ toString (s1.node_count + 1)))
                   (some "call_function") none (some fname) none inputs [] [] (some false)] } := hg4
          exact grows_trans hg1 (grows_trans hg3' hg5)
    | constant t => simp only [visitCall] at h; cases h; exact ⟨hInv, grows_refl s⟩
    | collection k elts => simp only [visitCall] at h; cases h; exact ⟨hInv, grows_refl s⟩
    | binOp l op rr => simp only [visitCall] at h; cases h; exact ⟨hInv, grows_refl s⟩
    | compare l ops cs => simp only [visitCall] at h; cases h; exact ⟨hInv, grows_refl s⟩
    | call f2 a2 k2 => simp only [visitCall] at h; cases h; exact ⟨hInv, grows_refl s⟩
    | unaryOp o => simp only [visitCall] at h; cases h; exact ⟨hInv, grows_refl s⟩
  | constant t => simp only [visitCall] at h; cases h; exact ⟨hInv, grows_refl s⟩
  | name i => simp only [visitCall] at h; cases h; exact ⟨hInv, grows_refl s⟩
  | collection k elts => simp only [visitCall] at h; cases h; exact ⟨hInv, grows_refl s⟩
  | binOp l op rr => simp only [visitCall] at h; cases h; exact ⟨hInv, grows_refl s⟩
  | compare l ops cs => simp only [visitCall] at h; cases h; exact ⟨hInv, grows_refl s⟩
  | unaryOp o => simp only [visitCall] at h; cases h; exact ⟨hInv, grows_refl s⟩

theorem memAvail_append_stmt_self {P : List String} {s : DecompState}
    {node : GraphNode} {nid : String} (hnid : nid ∈ nodeIds node) :
    MemAvail P { s with statement_nodes := s.statement_nodes ++ [node] } nid := by
  refine Or.inl ?_
  show nid ∈ nodesIds (s.statement_nodes ++ [node])
  rw [nodesIds_append]
  exact List.mem_append_right _ (mem_nodesIds_single hnid)

theorem memAvail_append_expr_self {P : List String} {s : DecompState}
    {node : GraphNode} {nid : String} (hnid : nid ∈ nodeIds node) :
    MemAvail P { s with expression_nodes := s.expression_nodes ++ [node] } nid := by
  refine Or.inr (Or.inl ?_)
  show nid ∈ nodesIds (s.expression_nodes ++ [node])
  rw [nodesIds_append]
  exact List.mem_append_right _ (mem_nodesIds_single hnid)

/-- Appending a leaf expression node (ids and links of its inputs only) and
registering it in `expression_map` — the common tail of `visit_BinOp`,
`visit_Compare` and the expression use of `visit_Call`. -/
theorem invD_append_expr_leaf {P : List String} {s : DecompState} {ins : List InputData}
    {t v f tv : Option String} {iis : Option Bool} {nid : String} {e : PyExpr}
    (hInv : InvD P s)
    (hlinks : ∀ i ∈ ins, ∀ l, inputLinkTarget i = some l → MemAvail P s l) :
    InvD P { s with expression_nodes := s.expression_nodes ++ [GraphNode.mk (some nid) t v f tv ins [] [] iis], expression_map := eset s.expression_map e nid }
    ∧ Grows s { s with expression_nodes := s.expression_nodes ++ [GraphNode.mk (some nid) t v f tv ins [] [] iis], expression_map := eset s.expression_map e nid } := by
  have hInv0 : InvD (P ++ []) s := by rw [List.append_nil]; exact hInv
  have hlinks0 : ∀ x ∈ nodeLinkTargets (GraphNode.mk (some nid) t v f tv ins [] [] iis),
      MemAvail (P ++ []) s x := by
    intro x hx
    rw [nodeLinkTargets_leaf] at hx
    obtain ⟨i, hi, hit⟩ := List.mem_filterMap.mp hx
    rw [List.append_nil]
    exact hlinks i hi x hit
  obtain ⟨hInv1, hg1⟩ := invD_append_expr hInv0 hlinks0 (fun y hy => by simp at hy)
  have hnid : MemAvail P { s with expression_nodes := s.expression_nodes
      ++ [GraphNode.mk (some nid) t v f tv ins [] [] iis] } nid :=
    memAvail_append_expr_self (by rw [nodeIds_leaf]; simp)
  exact ⟨invD_eset_map hInv1 hnid, hg1⟩

/-- Appending the leaf `variable_assign` node and registering the variable's
provider — the tail of `visit_Assign`. -/
theorem invD_append_stmt_assign {P : List String} {s : DecompState} {ins : List InputData}
    {t v f tv : Option String} {iis : Option Bool} {nid varName : String}
    (hInv : InvD P s)
    (hlinks : ∀ i ∈ ins, ∀ l, inputLinkTarget i = some l → MemAvail P s l) :
    InvD P { s with statement_nodes := s.statement_nodes ++ [GraphNode.mk (some nid) t v f tv ins [] [] iis], variable_providers := aset s.variable_providers varName nid }
    ∧ Grows s { s with statement_nodes := s.statement_nodes ++ [GraphNode.mk (some nid) t v f tv ins [] [] iis], variable_providers := aset s.variable_providers varName nid } := by
  have hInv0 : InvD (P ++ []) s := by rw [List.append_nil]; exact hInv
  have hlinks0 : ∀ x ∈ nodeLinkTargets (GraphNode.mk (some nid) t v f tv ins [] [] iis),
      MemAvail (P ++ []) s x := by
    intro x hx
    rw [nodeLinkTargets_leaf] at hx
    obtain ⟨i, hi, hit⟩ := List.mem_filterMap.mp hx
    rw [List.append_nil]
    exact hlinks i hi x hit
  obtain ⟨hInv1, hg1⟩ := invD_append_stmt hInv0 hlinks0 (fun y hy => by simp at hy)
  have hnid : MemAvail P { s with statement_nodes := s.statement_nodes
      ++ [GraphNode.mk (some nid) t v f tv ins [] [] iis] } nid :=
    memAvail_append_stmt_self (by rw [nodeIds_leaf]; simp)
  exact ⟨invD_aset_provider hInv1 hnid, hg1⟩

theorem step_SB {n : Nat} (ihE : SE n) (ihI : SI n) : SB (n+1) := by
  intro P s e s' hInv h
  cases e with
  | binOp l op rr =>
    simp only [visitBinOp, getUniqueId] at h
    obtain ⟨s1, h1, h⟩ := bind_ok_ex h
    obtain ⟨s2, h2, h⟩ := bind_ok_ex h
    obtain ⟨hInv1, hg1⟩ := ihE _ _ _ _ hInv h1
    obtain ⟨hInv2, hg2⟩ := ihE _ _ _ _ hInv1 h2
    have hInv2' : InvD P { s2 with node_count := s2.node_count + 1 } := hInv2
    cases hop : REVERSE_BINOP_MAP op with
    | none =>
      rw [hop] at h
      obtain ⟨s4, h4, h5⟩ := bind_ok_ex h
      obtain ⟨hInv4, hg4⟩ := ihE _ _ _ _ hInv2' h4
      obtain ⟨hInv5, hg5⟩ := ihE _ _ _ _ hInv4 h5
      have hg4' : Grows s2 s4 := hg4
      exact ⟨hInv5, grows_trans hg1 (grows_trans hg2 (grows_trans hg4' hg5))⟩
    | some opStr =>
      rw [hop] at h
      obtain ⟨⟨s4, li⟩, h4, h⟩ := bind_ok_ex h
      obtain ⟨⟨s5, ri⟩, h5, h⟩ := bind_ok_ex h
      cases h
      dsimp only
      obtain ⟨hInv4, hg4, hl4⟩ := ihI _ _ _ _ hInv2' h4
      obtain ⟨hInv5, hg5, hl5⟩ := ihI _ _ _ _ hInv4 h5
      have hg4' : Grows s2 s4 := hg4
      have hlinks : ∀ i ∈ [{ li with name := some "left" }, { ri with name := some "right" }],
          ∀ x, inputLinkTarget i = some x → MemAvail P s5 x := by
        intro i hi x hit
        rcases List.mem_cons.mp hi with rfl | hi
        · have hit' : inputLinkTarget li = some x := hit
          exact memAvail_mono (hl4 x hit') hg5 (fun y hy => hy)
        · rcases List.mem_cons.mp hi with rfl | hi
          · have hit' : inputLinkTarget ri = some x := hit
            exact hl5 x hit'
          · simp at hi
      obtain ⟨hInvF, hgF⟩ := invD_append_expr_leaf hInv5 hlinks
      exact ⟨hInvF, grows_trans hg1 (grows_trans hg2 (grows_trans hg4' (grows_trans hg5 hgF)))⟩
  | constant t => simp only [visitBinOp] at h; cases h; exact ⟨hInv, grows_refl s⟩
  | name i => simp only [visitBinOp] at h; cases h; exact ⟨hInv, grows_refl s⟩
  | collection k elts => simp only [visitBinOp] at h; cases h; exact ⟨hInv, grows_refl s⟩
  | compare l ops cs => simp only [visitBinOp] at h; cases h; exact ⟨hInv, grows_refl s⟩
  | call f args kw => simp only [visitBinOp] at h; cases h; exact ⟨hInv, grows_refl s⟩
  | unaryOp o => simp only [visitBinOp] at h; cases h; exact ⟨hInv, grows_refl s⟩

theorem step_SCmp {n : Nat} (ihE : SE n) (ihI : SI n) (ihEL : SEL n) : SCmp (n+1) := by
  intro P s e s' hInv h
  cases e with
  | compare l ops cs =>
    simp only [visitCompare] at h
    obtain ⟨s1, h1, h⟩ := bind_ok_ex h
    obtain ⟨hInv1, hg1⟩ := ihE _ _ _ _ hInv h1
    cases cs with
    | nil => simp at h
    | cons c0 crest =>
      simp only [] at h
      obtain ⟨s2, h2, h⟩ := bind_ok_ex h
      obtain ⟨hInv2, hg2⟩ := ihE _ _ _ _ hInv1 h2
      cases ops with
      | nil =>
        obtain ⟨s4, h4, h5⟩ := bind_ok_ex h
        obtain ⟨hInv4, hg4⟩ := ihE _ _ _ _ hInv2 h4
        obtain ⟨hInv5, hg5⟩ := ihEL _ _ _ _ hInv4 h5
        exact ⟨hInv5, grows_trans hg1 (grows_trans hg2 (grows_trans hg4 hg5))⟩
      | cons op0 oprest =>
        cases oprest with
        | nil =>
          simp only [getUniqueId] at h
          have hInv2' : InvD P { s2 with node_count := s2.node_count + 1 } := hInv2
          cases hop : REVERSE_CMPOP_MAP op0 with
          | none =>
            rw [hop] at h
            obtain ⟨s4, h4, h5⟩ := bind_ok_ex h
            obtain ⟨hInv4, hg4⟩ := ihE _ _ _ _ hInv2' h4
            obtain ⟨hInv5, hg5⟩ := ihEL _ _ _ _ hInv4 h5
            have hg4' : Grows s2 s4 := hg4
            exact ⟨hInv5, grows_trans hg1 (grows_trans hg2 (grows_trans hg4' hg5))⟩
          | some opStr =>
            rw [hop] at h
            obtain ⟨⟨s4, li⟩, h4, h⟩ := bind_ok_ex h
            obtain ⟨⟨s5, ri⟩, h5, h⟩ := bind_ok_ex h
            cases h
            dsimp only
            obtain ⟨hInv4, hg4, hl4⟩ := ihI _ _ _ _ hInv2' h4
            obtain ⟨hInv5, hg5, hl5⟩ := ihI _ _ _ _ hInv4 h5
            have hg4' : Grows s2 s4 := hg4
            have hlinks : ∀ i ∈ [{ li with name := some "left" },
                { ri with name := some "right" }],
                ∀ x, inputLinkTarget i = some x → MemAvail P s5 x := by
              intro i hi x hit
              rcases List.mem_cons.mp hi with rfl | hi
              · have hit' : inputLinkTarget li = some x := hit
                exact memAvail_mono (hl4 x hit') hg5 (fun y hy => hy)
              · rcases List.mem_cons.mp hi with rfl | hi
                · have hit' : inputLinkTarget ri = some x := hit
                  exact hl5 x hit'
                · simp at hi
            obtain ⟨hInvF, hgF⟩ := invD_append_expr_leaf hInv5 hlinks
            exact ⟨hInvF,
              grows_trans hg1 (grows_trans hg2 (grows_trans hg4' (grows_trans hg5 hgF)))⟩
        | cons op1 oprest2 =>
          obtain ⟨s4, h4, h5⟩ := bind_ok_ex h
          obtain ⟨hInv4, hg4⟩ := ihE _ _ _ _ hInv2 h4
          obtain ⟨hInv5, hg5⟩ := ihEL _ _ _ _ hInv4 h5
          exact ⟨hInv5, grows_trans hg1 (grows_trans hg2 (grows_trans hg4 hg5))⟩
  | constant t => simp only [visitCompare] at h; cases h; exact ⟨hInv, grows_refl s⟩
  | name i => simp only [visitCompare] at h; cases h; exact ⟨hInv, grows_refl s⟩
  | collection k elts => simp only [visitCompare] at h; cases h; exact ⟨hInv, grows_refl s⟩
  | binOp l op rr => simp only [visitCompare] at h; cases h; exact ⟨hInv, grows_refl s⟩
  | call f args kw => simp only [visitCompare] at h; cases h; exact ⟨hInv, grows_refl s⟩
  | unaryOp o => simp only [visitCompare] at h; cases h; exact ⟨hInv, grows_refl s⟩

theorem nodeIds_nested (nid : String) (t v f tv : Option String) (ins : List InputData)
    (b oe : List GraphNode) (iis : Option Bool) :
    nodeIds (GraphNode.mk (some nid) t v f tv ins b oe iis)
      = nid :: (nodesIds b ++ nodesIds oe) := by
  simp [nodeIds]

theorem nodeLinkTargets_nested (i t v f tv : Option String) (ins : List InputData)
    (b oe : List GraphNode) (iis : Option Bool) :
    nodeLinkTargets (GraphNode.mk i t v f tv ins b oe iis)
      = ins.filterMap inputLinkTarget ++ (nodesLinkTargets b ++ nodesLinkTargets oe) := by
  simp [nodeLinkTargets]

theorem step_SA {n : Nat} (ihE : SE n) (ihI : SI n) : SA (n+1) := by
  intro P s targets v s' hInv h
  simp only [visitAssign, getUniqueId] at h
  obtain ⟨s1, h1, h⟩ := bind_ok_ex h
  obtain ⟨hInv1, hg1⟩ := ihE _ _ _ _ hInv h1
  cases targets with
  | nil => simp at h
  | cons t0 rest =>
    cases t0 with
    | name varName =>
      obtain ⟨⟨s3, inp⟩, h3, h⟩ := bind_ok_ex h
      cases h
      dsimp only
      have hInv1' : InvD P { s1 with node_count := s1.node_count + 1 } := hInv1
      obtain ⟨hInv3, hg3, hl3⟩ := ihI _ _ _ _ hInv1' h3
      have hg3' : Grows s1 s3 := hg3
      have hlinks : ∀ i ∈ [{ inp with name := some "value" }],
          ∀ l, inputLinkTarget i = some l → MemAvail P s3 l := by
        intro i hi l hl
        rcases List.mem_cons.mp hi with rfl | hi
        · have hl' : inputLinkTarget inp = some l := hl
          exact hl3 l hl'
        · simp at hi
      obtain ⟨hInvF, hgF⟩ := invD_append_stmt_assign hInv3 hlinks
      exact ⟨hInvF, grows_trans hg1 (grows_trans hg3' hgF)⟩
    | constant t => simp at h
    | collection k elts => simp at h
    | binOp l op rr => simp at h
    | compare l ops cs => simp at h
    | call f args kw => simp at h
    | unaryOp o => simp at h

theorem step_SS {n : Nat} (ihA : SA n) (ihC : SC n) (ihIf : SIfP n) (ihF : SF n)
    (ihE : SE n) : SS (n+1) := by
  intro P s st s' hInv h
  cases st with
  | assign targets v => simp only [visitStmt] at h; exact ihA _ _ _ _ _ hInv h
  | exprStmt v =>
    simp only [visitStmt] at h
    cases v with
    | call f args kw => exact ihC _ _ _ _ _ hInv h
    | constant t => exact ihE _ _ _ _ hInv h
    | name i => exact ihE _ _ _ _ hInv h
    | collection k elts => exact ihE _ _ _ _ hInv h
    | binOp l op rr => exact ihE _ _ _ _ hInv h
    | compare l ops cs => exact ihE _ _ _ _ hInv h
    | unaryOp o => exact ihE _ _ _ _ hInv h
  | ifStmt t b oe => simp only [visitStmt] at h; exact ihIf _ _ _ _ _ _ hInv h
  | forStmt tgt it b oe => simp only [visitStmt] at h; exact ihF _ _ _ _ _ _ _ hInv h
  | passStmt => simp only [visitStmt] at h; cases h; exact ⟨hInv, grows_refl s⟩

theorem step_SSL {n : Nat} (ihS : SS n) (ihSL : SSL n) : SSL (n+1) := by
  intro P s sts s' hInv h
  cases sts with
  | nil => simp only [visitStmtList] at h; cases h; exact ⟨hInv, grows_refl s⟩
  | cons st rest =>
    simp only [visitStmtList] at h
    obtain ⟨s1, h1, h2⟩ := bind_ok_ex h
    obtain ⟨hInv1, hg1⟩ := ihS _ _ _ _ hInv h1
    obtain ⟨hInv2, hg2⟩ := ihSL _ _ _ _ hInv1 h2
    exact ⟨hInv2, grows_trans hg1 hg2⟩

theorem step_SDB {n : Nat} (ihSL : SSL n) : SDB (n+1) := by
  intro P s stmts r hInv h
  simp only [decompileBody] at h
  obtain ⟨s1, h1, h⟩ := bind_ok_ex h
  cases h
  dsimp only
  have hInv0 : InvD (P ++ nodesIds s.statement_nodes) { s with statement_nodes := [] } := by
    obtain ⟨hc1, hc2, hc3, hc4⟩ := hInv
    have hsh : ∀ x, MemAvail P s x →
        MemAvail (P ++ nodesIds s.statement_nodes) { s with statement_nodes := [] } x := by
      intro x hx
      rcases hx with hx | hx | hx
      · exact Or.inr (Or.inr (List.mem_append_right _ hx))
      · exact Or.inr (Or.inl hx)
      · exact Or.inr (Or.inr (List.mem_append_left _ hx))
    refine ⟨fun p hp => hsh _ (hc1 p hp), fun p hp => hsh _ (hc2 p hp), ?_,
      fun x hx => hsh _ (hc4 x hx)⟩
    intro x hx
    simp [nodesLinkTargets] at hx
  obtain ⟨hInv1, hg1⟩ := ihSL _ _ _ _ hInv0 h1
  have hsh2 : ∀ x, MemAvail (P ++ nodesIds s.statement_nodes) s1 x →
      MemAvail (P ++ nodesIds s1.statement_nodes)
        { s1 with statement_nodes := s.statement_nodes } x := by
    intro x hx
    rcases hx with hx | hx | hx
    · exact Or.inr (Or.inr (List.mem_append_right _ hx))
    · exact Or.inr (Or.inl hx)
    · rcases List.mem_append.mp hx with hx | hx
      · exact Or.inr (Or.inr (List.mem_append_left _ hx))
      · exact Or.inl hx
  refine ⟨rfl, ?_, ?_, ?_⟩
  · intro y hy
    exact hg1.2 y hy
  · obtain ⟨hd1, hd2, hd3, hd4⟩ := hInv1
    refine ⟨fun p hp => hsh2 _ (hd1 p hp), fun p hp => hsh2 _ (hd2 p hp), ?_,
      fun x hx => hsh2 _ (hd4 x hx)⟩
    intro x hx
    have hx' := hInv.2.2.1 x hx
    rcases hx' with hx' | hx' | hx'
    · exact Or.inl hx'
    · exact Or.inr (Or.inl (hg1.2 x hx'))
    · exact Or.inr (Or.inr (List.mem_append_left _ hx'))
  · intro x hx
    exact hsh2 _ (hInv1.2.2.1 x hx)

theorem step_SIf {n : Nat} (ihE : SE n) (ihI : SI n) (ihDB : SDB n) : SIfP (n+1) := by
  intro P s t b oe s' hInv h
  simp only [visitIf, getUniqueId] at h
  obtain ⟨s2, h2, h⟩ := bind_ok_ex h
  obtain ⟨⟨s3, tinp⟩, h3, h⟩ := bind_ok_ex h
  obtain ⟨⟨s4, bodyNodes⟩, h4, h⟩ := bind_ok_ex h
  have hInv1 : InvD P { s with node_count := s.node_count + 1 } := hInv
  obtain ⟨hInv2, hg2⟩ := ihE _ _ _ _ hInv1 h2
  have hg2' : Grows s s2 := hg2
  obtain ⟨hInv3, hg3, hl3⟩ := ihI _ _ _ _ hInv2 h3
  obtain ⟨hEq4, hge4, hInv4, hl4⟩ := ihDB _ _ _ _ hInv3 h4
  dsimp only at hEq4 hge4 hInv4 hl4
  have hg4 : Grows s3 s4 := ⟨fun y hy => by rw [hEq4]; exact hy, hge4⟩
  by_cases hoe : oe.isEmpty
  · rw [if_pos hoe] at h
    simp only [pure_eq_ok, Bind.bind, Except.bind] at h
    cases h
    have hInv5' : InvD (P ++ (nodesIds bodyNodes ++ nodesIds ([] : List GraphNode))) s4 := by
      rw [← List.append_assoc]
      simpa [nodesIds] using hInv4
    have hlinksNode : ∀ x ∈ nodeLinkTargets (GraphNode.mk
        (some ("if" ++ "-" ++ toString (s.node_count + 1))) (some "if_statement") none none
        none [{ tinp with name := some "test" }] bodyNodes ([] : List GraphNode) (some true)),
        MemAvail (P ++ (nodesIds bodyNodes ++ nodesIds ([] : List GraphNode))) s4 x := by
      intro x hx
      rw [nodeLinkTargets_nested] at hx
      rcases List.mem_append.mp hx with hx | hx
      · obtain ⟨i, hi, hit⟩ := List.mem_filterMap.mp hx
        rcases List.mem_cons.mp hi with rfl | hi
        · have hit' : inputLinkTarget tinp = some x := hit
          exact memAvail_mono (hl3 x hit') hg4 (fun y hy => List.mem_append_left _ hy)
        · simp at hi
      · rcases List.mem_append.mp hx with hx | hx
        · refine memAvail_mono (hl4 x hx) (grows_refl s4) ?_
          intro y hy
          rcases List.mem_append.mp hy with hy | hy
          · exact List.mem_append_left _ hy
          · exact List.mem_append_right _ (List.mem_append_left _ hy)
        · simp [nodesLinkTargets] at hx
    have hextra : ∀ y ∈ nodesIds bodyNodes ++ nodesIds ([] : List GraphNode),
        y ∈ nodeIds (GraphNode.mk
          (some ("if" ++ "-" ++ toString (s.node_count + 1))) (some "if_statement") none none
          none [{ tinp with name := some "test" }] bodyNodes ([] : List GraphNode) (some true)) := by
      intro y hy
      rw [nodeIds_nested]
      exact List.mem_cons_of_mem _ hy
    obtain ⟨hInvF, hgF⟩ := invD_append_stmt hInv5' hlinksNode hextra
    exact ⟨hInvF, grows_trans hg2' (grows_trans hg3 (grows_trans hg4 hgF))⟩
  · rw [if_neg hoe] at h
    obtain ⟨⟨s5, orelseNodes⟩, h5, h⟩ := bind_ok_ex h
    cases h
    dsimp only
    obtain ⟨hEq5, hge5e, hInv5, hl5⟩ := ihDB _ _ _ _ hInv4 h5
    dsimp only at hEq5 hge5e hInv5 hl5
    have hge5 : Grows s4 s5 := ⟨fun y hy => by rw [hEq5]; exact hy, hge5e⟩
    have hInv5' : InvD (P ++ (nodesIds bodyNodes ++ nodesIds orelseNodes)) s5 := by
      rw [← List.append_assoc]
      exact hInv5
    have hlinksNode : ∀ x ∈ nodeLinkTargets (GraphNode.mk
        (some ("if" ++ "-" ++ toString (s.node_count + 1))) (some "if_statement") none none
        none [{ tinp with name := some "test" }] bodyNodes orelseNodes (some true)),
        MemAvail (P ++ (nodesIds bodyNodes ++ nodesIds orelseNodes)) s5 x := by
      intro x hx
      rw [nodeLinkTargets_nested] at hx
      rcases List.mem_append.mp hx with hx | hx
      · obtain ⟨i, hi, hit⟩ := List.mem_filterMap.mp hx
        rcases List.mem_cons.mp hi with rfl | hi
        · have hit' : inputLinkTarget tinp = some x := hit
          exact memAvail_mono (hl3 x hit') (grows_trans hg4 hge5)
            (fun y hy => List.mem_append_left _ hy)
        · simp at hi
      · rcases List.mem_append.mp hx with hx | hx
        · refine memAvail_mono (hl4 x hx) hge5 ?_
          intro y hy
          rcases List.mem_append.mp hy with hy | hy
          · exact List.mem_append_left _ hy
          · exact List.mem_append_right _ (List.mem_append_left _ hy)
        · have := hl5 x hx
          rw [List.append_assoc] at this
          exact this
    have hextra : ∀ y ∈ nodesIds bodyNodes ++ nodesIds orelseNodes,
        y ∈ nodeIds (GraphNode.mk
          (some ("if" ++ "-" ++ toString (s.node_count + 1))) (some "if_statement") none none
          none [{ tinp with name := some "test" }] bodyNodes orelseNodes (some true)) := by
      intro y hy
      rw [nodeIds_nested]
      exact List.mem_cons_of_mem _ hy
    obtain ⟨hInvF, hgF⟩ := invD_append_stmt hInv5' hlinksNode hextra
    exact ⟨hInvF, grows_trans hg2' (grows_trans hg3 (grows_trans hg4 (grows_trans hge5 hgF)))⟩

theorem step_SF {n : Nat} (ihE : SE n) (ihI : SI n) (ihDB : SDB n) : SF (n+1) := by
  intro P s tgt it b oe s' hInv h
  simp only [visitFor, getUniqueId] at h
  cases hoeb : oe.isEmpty with
  | false => rw [hoeb] at h; simp at h
  | true =>
    rw [hoeb] at h
    simp only [Bool.not_true, Bool.false_eq_true, if_false] at h
    cases tgt with
    | name tvar =>
      obtain ⟨s2, h2, h⟩ := bind_ok_ex h
      obtain ⟨⟨s3, iinp⟩, h3, h⟩ := bind_ok_ex h
      obtain ⟨⟨s5, bodyNodes⟩, h5, h⟩ := bind_ok_ex h
      cases h
      dsimp only
      dsimp only at h5
      have hInv1 : InvD P { s with node_count := s.node_count + 1 } := hInv
      obtain ⟨hInv2, hg2⟩ := ihE _ _ _ _ hInv1 h2
      have hg2' : Grows s s2 := hg2
      obtain ⟨hInv3, hg3, hl3⟩ := ihI _ _ _ _ hInv2 h3
      have hInv4 : InvD (P ++ ["for_loop" ++ "-" ++ toString (s.node_count + 1)])
          { s3 with variable_providers := aset s3.variable_providers tvar ("for_loop" ++ "-" ++ toString (s.node_count + 1)) } := by
        refine invD_set_providers
          (invD_promise_mono hInv3 (fun y hy => List.mem_append_left _ hy)) ?_
        intro p hp
        rcases mem_aset hp with hp | rfl
        · exact memAvail_mono (hInv3.1 p hp) (grows_refl s3)
            (fun y hy => List.mem_append_left _ hy)
        · exact Or.inr (Or.inr (List.mem_append_right _ (List.mem_singleton.mpr rfl)))
      obtain ⟨hEq5, hge5e, hInv5, hl5⟩ := ihDB _ _ _ _ hInv4 h5
      dsimp only at hEq5 hge5e hInv5 hl5
      have hg5 : Grows s3 s5 := ⟨fun y hy => by rw [hEq5]; exact hy, hge5e⟩
      have tail : ∀ (m : List (String × String)),
          (∀ p ∈ m, MemAvail ((P ++ ["for_loop" ++ "-" ++ toString (s.node_count + 1)])
              ++ nodesIds bodyNodes) s5 p.2) →
          InvD P { s5 with variable_providers := m, statement_nodes := s5.statement_nodes ++ [GraphNode.mk (some ("for_loop" ++ "-" ++ toString (s.node_count + 1))) (some "for_loop") none none (some tvar) [{ iinp with name := some "iter" }] bodyNodes [] (some true)] }
          ∧ Grows s { s5 with variable_providers := m, statement_nodes := s5.statement_nodes ++ [GraphNode.mk (some ("for_loop" ++ "-" ++ toString (s.node_count + 1))) (some "for_loop") none none (some tvar) [{ iinp with name := some "iter" }] bodyNodes [] (some true)] } := by
        intro m hm
        have hInv6 : InvD ((P ++ ["for_loop" ++ "-" ++ toString (s.node_count + 1)])
            ++ nodesIds bodyNodes) { s5 with variable_providers := m } :=
          invD_set_providers hInv5 hm
        have hInv6' : InvD (P ++ (["for_loop" ++ "-" ++ toString (s.node_count + 1)]
            ++ nodesIds bodyNodes)) { s5 with variable_providers := m } := by
          rw [← List.append_assoc]
          exact hInv6
        have hlinksNode : ∀ x ∈ nodeLinkTargets (GraphNode.mk
            (some ("for_loop" ++ "-" ++ toString (s.node_count + 1))) (some "for_loop")
            none none (some tvar) [{ iinp with name := some "iter" }] bodyNodes
            ([] : List GraphNode) (some true)),
            MemAvail (P ++ (["for_loop" ++ "-" ++ toString (s.node_count + 1)]
              ++ nodesIds bodyNodes)) { s5 with variable_providers := m } x := by
          intro x hx
          rw [nodeLinkTargets_nested] at hx
          rcases List.mem_append.mp hx with hx | hx
          · obtain ⟨i, hi, hit⟩ := List.mem_filterMap.mp hx
            rcases List.mem_cons.mp hi with rfl | hi
            · have hit' : inputLinkTarget iinp = some x := hit
              have hxa : MemAvail P s3 x := hl3 x hit'
              have hxa5 : MemAvail (P ++ (["for_loop" ++ "-" ++ toString (s.node_count + 1)]
                  ++ nodesIds bodyNodes)) s5 x :=
                memAvail_mono hxa hg5 (fun y hy => List.mem_append_left _ hy)
              exact hxa5
            · simp at hi
          · rcases List.mem_append.mp hx with hx | hx
            · have := hl5 x hx
              rw [List.append_assoc] at this
              exact this
            · simp [nodesLinkTargets] at hx
        have hextra : ∀ y ∈ ["for_loop" ++ "-" ++ toString (s.node_count + 1)]
            ++ nodesIds bodyNodes,
            y ∈ nodeIds (GraphNode.mk
              (some ("for_loop" ++ "-" ++ toString (s.node_count + 1))) (some "for_loop")
              none none (some tvar) [{ iinp with name := some "iter" }] bodyNodes
              ([] : List GraphNode) (some true)) := by
          intro y hy
          rw [nodeIds_nested]
          rcases List.mem_append.mp hy with hy | hy
          · rw [List.mem_singleton] at hy
            rw [hy]
            exact List.mem_cons_self _ _
          · exact List.mem_cons_of_mem _ (List.mem_append_left _ hy)
        obtain ⟨hInvF, hgF⟩ := invD_append_stmt hInv6' hlinksNode hextra
        have hg6 : Grows s5 { s5 with variable_providers := m } := grows_refl s5
        exact ⟨hInvF, grows_trans hg2' (grows_trans hg3 (grows_trans hg5
          (grows_trans hg6 hgF)))⟩
      cases halo : alookup s3.variable_providers tvar with
      | none =>
        dsimp only
        refine tail (aerase s5.variable_providers tvar) ?_
        intro p hp
        exact memAvail_mono (hInv5.1 p (mem_aerase hp)) (grows_refl s5) (fun y hy => hy)
      | some p =>
        dsimp only
        by_cases hp0 : p = ""
        · rw [if_pos hp0]
          refine tail (aerase s5.variable_providers tvar) ?_
          intro q hq
          exact memAvail_mono (hInv5.1 q (mem_aerase hq)) (grows_refl s5) (fun y hy => hy)
        · rw [if_neg hp0]
          refine tail (aset s5.variable_providers tvar p) ?_
          intro q hq
          rcases mem_aset hq with hq | rfl
          · exact memAvail_mono (hInv5.1 q hq) (grows_refl s5) (fun y hy => hy)
          · have hmem : (tvar, p) ∈ s3.variable_providers := alookup_mem halo
            exact memAvail_mono (hInv3.1 _ hmem) hg5
              (fun y hy => List.mem_append_left _ (List.mem_append_left _ hy))
    | constant t => simp at h
    | collection k elts => simp at h
    | binOp l op rr => simp at h
    | compare l ops cs => simp at h
    | call f args kw => simp at h
    | unaryOp o => simp at h

/-- The link invariant holds for the whole visitor family, by induction on
fuel. -/
theorem decompiler_link_invariant : ∀ n : Nat,
    SE n ∧ SEL n ∧ SC n ∧ SB n ∧ SCmp n ∧ SI n ∧ SCol n
    ∧ SS n ∧ SSL n ∧ SA n ∧ SIfP n ∧ SF n ∧ SDB n := by
  intro n
  induction n with
  | zero =>
    refine ⟨?_, ?_, ?_, ?_, ?_, ?_, ?_, ?_, ?_, ?_, ?_, ?_, ?_⟩
    · intro P s e s' _ h; exact absurd h (by simp [visitExpr])
    · intro P s es s' _ h; exact absurd h (by simp [visitExprList])
    · intro P s e b s' _ h; exact absurd h (by simp [visitCall])
    · intro P s e s' _ h; exact absurd h (by simp [visitBinOp])
    · intro P s e s' _ h; exact absurd h (by simp [visitCompare])
    · intro P s e r _ h; exact absurd h (by simp [getInputDataFromAst])
    · intro P s args idx r _ h; exact absurd h (by simp [collectCallInputs])
    · intro P s st s' _ h; exact absurd h (by simp [visitStmt])
    · intro P s sts s' _ h; exact absurd h (by simp [visitStmtList])
    · intro P s targets v s' _ h; exact absurd h (by simp [visitAssign])
    · intro P s t b oe s' _ h; exact absurd h (by simp [visitIf])
    · intro P s tgt it b oe s' _ h; exact absurd h (by simp [visitFor])
    · intro P s stmts r _ h; exact absurd h (by simp [decompileBody])
  | succ n ih =>
    obtain ⟨ihE, ihEL, ihC, ihB, ihCmp, ihI, ihCol, ihS, ihSL, ihA, ihIf, ihF, ihDB⟩ := ih
    exact ⟨step_SE ihEL ihE ihC ihB ihCmp, step_SEL ihE ihEL, step_SC ihEL ihCol,
      step_SB ihE ihI, step_SCmp ihE ihI ihEL, step_SI ihE, step_SCol ihI ihCol,
      step_SS ihA ihC ihIf ihF ihE, step_SSL ihS ihSL, step_SA ihE ihI,
      step_SIf ihE ihI ihDB, step_SF ihE ihI ihDB, step_SDB ihSL⟩

/-- C4 amended: every **non-null** `Link` target in a successfully
decompiled graph resolves to a node present in the same graph (top-level or
nested).  (The original claim is refuted by `c4_counterexample`: null links
do occur.) -/
theorem c4_amended :
    ∀ (fuel : Nat) (prog : List PyStmt) (g : Graph),
      decompileProgram fuel prog = .ok g →
      ∀ l ∈ nodesLinkTargets g.nodes, l ∈ nodesIds g.nodes := by
  intro fuel prog g h l hl
  simp only [decompileProgram] at h
  obtain ⟨sf, h1, h2⟩ := bind_ok_ex h
  injection h2 with h2
  subst h2
  have hInv0 : InvD [] ⟨[], [], [], [], 0⟩ := by
    refine ⟨?_, ?_, ?_, ?_⟩
    · intro p hp; simp at hp
    · intro p hp; simp at hp
    · intro x hx; simp [nodesLinkTargets] at hx
    · intro x hx; simp [nodesLinkTargets] at hx
  obtain ⟨hInvF, _⟩ :=
    (decompiler_link_invariant fuel).2.2.2.2.2.2.2.2.1 _ _ _ _ hInv0 h1
  simp only [getGraph] at hl ⊢
  rw [nodesLinkTargets_append] at hl
  rw [nodesIds_append]
  rcases List.mem_append.mp hl with hl | hl
  · rcases hInvF.2.2.1 l hl with hmem | hmem | hmem
    · exact List.mem_append_left _ hmem
    · exact List.mem_append_right _ hmem
    · simp at hmem
  · rcases hInvF.2.2.2 l hl with hmem | hmem | hmem
    · exact List.mem_append_left _ hmem
    · exact List.mem_append_right _ hmem
    · simp at hmem

/-- C4 witness: the amended theorem applied to the concrete decompile of
`x = 100; print(x)` — its one link target, `assign-1`, is a node of the
graph. -/
theorem c4_amended_witness : "assign-1" ∈ nodesIds c4WitnessGraph.nodes :=
  c4_amended 30 c4WitnessProgram c4WitnessGraph rfl "assign-1" (by decide)
